import Mathlib

/-!
Verification of the deptrast SBOM-synthesis core (planetlevel/deptrast).

This file is a shallow embedding, in Lean 4, of the parts of the Python
source that the specification's claims are about:

* `models.py`            — the `Package` record and its construction.
* `graph_builder.py`     — the shared-node dependency graph state, managed
  version overrides, conflict resolution, loser-subtree exclusion, scope
  propagation, and the version comparison.
* `api_client.py`        — the deps.dev client (HTTP is an explicit oracle).
* `version_parser.py`    — the HeroDevs NES vendor-version translator.
* `formatters.py`        — CycloneDX scope mapping and SBOM assembly.

Python dicts are modelled as insertion-ordered association lists over
`String` keys; mutation of shared `Package` objects is modelled by updating
the canonical `allPackages` map, since every node's `package` field is the
canonical map entry (`graph_builder.py` lines 429-441 and 390-395 always
create nodes from the `all_packages` entry of the same identity).
Recursive traversals carry explicit fuel; the Python originals terminate
because the visited set grows, and the fuel passed at every call site is
large enough to never be exhausted on states whose maps list each node.
-/

namespace Deptrast

/-! ## Association-list maps (Python `dict`, insertion ordered) -/

/-- Lookup in an insertion-ordered association list (`d.get(k)`). -/
def getA {K A : Type} [DecidableEq K] : List (K × A) → K → Option A
  | [], _ => none
  | (k, v) :: rest, key => if k = key then some v else getA rest key

/-- `d[k] = v`: replace the value at an existing key in place (Python dicts
keep the original insertion position on update), else append. -/
def putA {K A : Type} [DecidableEq K] : List (K × A) → K → A → List (K × A)
  | [], key, v => [(key, v)]
  | (k, w) :: rest, key, v =>
    if k = key then (key, v) :: rest else (k, w) :: putA rest key v

/-- Apply `f` to the value stored at `key`, if present (mutation of the
object reached through the dict). -/
def modA {K A : Type} [DecidableEq K] : List (K × A) → K → (A → A) → List (K × A)
  | [], _, _ => []
  | (k, w) :: rest, key, f =>
    if k = key then (k, f w) :: rest else (k, w) :: modA rest key f

/-- Key membership (`k in d`). -/
def hasA {K A : Type} [DecidableEq K] (m : List (K × A)) (key : K) : Bool :=
  (getA m key).isSome

/-! ## String primitives

Python's `str.lower`, string comparison and splitting, re-implemented by
structural recursion on the character list so that concrete evaluations
reduce in the kernel. `lower` is ASCII (package systems and scopes are
ASCII); comparison is lexicographic on code points, as in Python. -/

/-- ASCII lower-casing of one character. -/
def charLower (c : Char) : Char :=
  if 'A' ≤ c && c ≤ 'Z' then Char.ofNat (c.toNat + 32) else c

/-- Python `s.lower()` (ASCII). -/
def pyLower (s : String) : String := ⟨s.data.map charLower⟩

/-- Lexicographic `<` on character lists by code point. -/
def ltChars : List Char → List Char → Bool
  | [], [] => false
  | [], _ :: _ => true
  | _ :: _, [] => false
  | c :: cs, d :: ds =>
    if c.toNat < d.toNat then true
    else if d.toNat < c.toNat then false
    else ltChars cs ds

/-- Python `a < b` on strings. -/
def pyStrLt (a b : String) : Bool := ltChars a.data b.data

/-- Splitting worker: `acc` holds the current field reversed. -/
def splitPAux (p : Char → Bool) : List Char → List Char → List String
  | acc, [] => [String.mk acc.reverse]
  | acc, c :: cs =>
    if p c then String.mk acc.reverse :: splitPAux p [] cs
    else splitPAux p (c :: acc) cs

/-- Split a string at every character satisfying `p`; adjacent separators
and separators at the ends produce empty fields, as in Python's `re.split`
with a single-character class and `str.split(sep)`. -/
def splitP (p : Char → Bool) (s : String) : List String :=
  splitPAux p [] s.data

/-- Python `s.split(sep)` for a one-character separator. -/
def splitChar (sep : Char) (s : String) : List String :=
  splitP (fun c => c = sep) s

/-! ## `models.py` — Package -/

/-- The mutable fields of `Package` that the claims are about
(`version_metadata` is handled separately by the version parser model). -/
structure Package where
  system : String
  name : String
  version : String
  scope : String
  original_maven_scope : String
  scope_reason : Option String
  winning_version : Option String
  scope_strategy : Option String
  defeated_versions : List String
  is_override_winner : Bool
  deriving Repr, DecidableEq

/-- `Package.__init__` plus `__post_init__`: the system is lower-cased, an
empty scope defaults to `compile`, and the original scope is captured. -/
def mkPackage (system name version : String) (scope : String := "compile") : Package :=
  let scope' := if scope = "" then "compile" else scope
  { system := pyLower system
    name := name
    version := version
    scope := scope'
    original_maven_scope := scope'
    scope_reason := none
    winning_version := none
    scope_strategy := none
    defeated_versions := []
    is_override_winner := false }

/-- `Package.full_name`: `"{system}:{name}:{version}"`. -/
def Package.full_name (p : Package) : String :=
  p.system ++ ":" ++ p.name ++ ":" ++ p.version

/-! ## `graph_builder._compare_versions` -/

/-- Digit-string to number; `none` unless the string is one or more ASCII
decimal digits. -/
def digitsToNat (cs : List Char) : Option Nat :=
  if cs ≠ [] && cs.all (·.isDigit) then
    some (cs.foldl (fun acc c => acc * 10 + (c.toNat - '0'.toNat)) 0)
  else
    none

/-- Python `int(s)` on a version part: an optional sign followed by digits.
(Python additionally strips surrounding whitespace and permits underscore
group separators; neither occurs in version parts split on `[.-]`.) -/
def pyInt (s : String) : Option Int :=
  match s.data with
  | '+' :: rest => (digitsToNat rest).map Int.ofNat
  | '-' :: rest => (digitsToNat rest).map (fun n => -(n : Int))
  | cs => (digitsToNat cs).map Int.ofNat

/-- `re.split(r'[.\-]', v)`. -/
def splitVersion (v : String) : List String :=
  splitP (fun c => c = '.' || c = '-') v

/-- The part-comparison loop of `_compare_versions` (lines 923-935): walk
the shared prefix, return `some` at the first deciding part, `none` when
the shared prefix is exhausted with no decision. -/
def comparePartsLoop : List String → List String → Option Int
  | p1 :: r1, p2 :: r2 =>
    (match pyInt p1, pyInt p2 with
     | some n1, some n2 =>
       if n1 ≠ n2 then some (n1 - n2) else comparePartsLoop r1 r2
     | _, _ =>
       if p1 ≠ p2 then some (if pyStrLt p2 p1 then (1 : Int) else -1)
       else comparePartsLoop r1 r2)
  | _, _ => none

/-- The loop result together with the final `len(parts1) - len(parts2)`
fall-through of `_compare_versions`. -/
def cmpListsFull (l1 l2 : List String) : Int :=
  match comparePartsLoop l1 l2 with
  | some r => r
  | none => (l1.length : Int) - (l2.length : Int)

/-- `DependencyGraphBuilder._compare_versions` (lines 914-937). -/
def compare_versions (v1 v2 : String) : Int :=
  if v1 = v2 then 0
  else cmpListsFull (splitVersion v1) (splitVersion v2)

/-- Collapse the integer result of `_compare_versions` to its sign. -/
def ordOfInt (i : Int) : Ordering :=
  if i < 0 then .lt else if 0 < i then .gt else .eq

/-- Claim C7's description of one part comparison: numeric when both parts
parse as integers, lexicographic on the raw parts otherwise. -/
def partOrd (p1 p2 : String) : Ordering :=
  match pyInt p1, pyInt p2 with
  | some n1, some n2 => if n1 < n2 then .lt else if n2 < n1 then .gt else .eq
  | _, _ =>
    if pyStrLt p1 p2 then .lt else if pyStrLt p2 p1 then .gt else .eq

/-- Claim C7's description of the whole comparison: first unequal part
decides; all shared prefix parts equal means the longer list is higher. -/
def claimVersionOrder : List String → List String → Ordering
  | [], [] => .eq
  | [], _ :: _ => .lt
  | _ :: _, [] => .gt
  | p1 :: r1, p2 :: r2 =>
    match partOrd p1 p2 with
    | .eq => claimVersionOrder r1 r2
    | o => o

/-- The comparison described by claim C7, as a function of the two
version strings. -/
def claimCompare (v1 v2 : String) : Ordering :=
  claimVersionOrder (splitVersion v1) (splitVersion v2)

/-! ## `version_parser.py` — HeroDevs NES versions

`HERODEVS_PATTERN` is
`^(\d+\.\d+\.\d+[A-Za-z0-9._]*)-([a-z][a-z0-9_-]*[a-z0-9_])-(\d+\.\d+\.\d+[A-Za-z0-9._]*)$`.
The character classes of groups 1 and 3 contain no `-`, so in any match
group 1 is exactly the text before the first `-` of the string and group 3
exactly the text after the last `-`; group 2 is everything in between,
and the regex engine's greedy/backtracking order cannot produce any other
decomposition. Inside a semver group, each `\d+` must be the maximal digit
run (the following mandatory character is `.`), and a shorter final digit
run only sheds digits into the trailing class, so checking the maximal-run
decomposition decides the whole existential. -/

/-- A character of the semver-group suffix class `[A-Za-z0-9._]`. -/
def isSemverSuffixChar (c : Char) : Bool :=
  c.isAlpha || c.isDigit || c = '.' || c = '_'

/-- `^\d+\.\d+\.\d+[A-Za-z0-9._]*$`. -/
def isSemverGroup (s : String) : Bool :=
  let sp1 := s.data.span Char.isDigit
  if sp1.1.isEmpty then false
  else
    match sp1.2 with
    | '.' :: r2 =>
      let sp2 := r2.span Char.isDigit
      if sp2.1.isEmpty then false
      else
        match sp2.2 with
        | '.' :: r4 =>
          let sp3 := r4.span Char.isDigit
          !sp3.1.isEmpty && sp3.2.all isSemverSuffixChar
        | _ => false
    | _ => false

/-- `[a-z]`. -/
def isLowerAlpha (c : Char) : Bool := 'a' ≤ c && c ≤ 'z'

/-- Inner artifact-name class `[a-z0-9_-]`. -/
def isArtifactMidChar (c : Char) : Bool :=
  isLowerAlpha c || c.isDigit || c = '_' || c = '-'

/-- Final artifact-name class `[a-z0-9_]`. -/
def isArtifactEndChar (c : Char) : Bool :=
  isLowerAlpha c || c.isDigit || c = '_'

/-- `^[a-z][a-z0-9_-]*[a-z0-9_]$` (so at least two characters). -/
def isArtifactName (s : String) : Bool :=
  match s.data with
  | [] => false
  | c :: rest =>
    match rest.getLast? with
    | none => false
    | some d =>
      isLowerAlpha c && rest.dropLast.all isArtifactMidChar && isArtifactEndChar d

/-- `HERODEVS_PATTERN.match(version)`: `some (upstream, artifact, patched)`
on a match, per the forced decomposition described above. -/
def herodevsMatch (version : String) : Option (String × String × String) :=
  match splitChar '-' version with
  | [] => none
  | g1 :: rest =>
    match rest.getLast? with
    | none => none
    | some g3 =>
      if rest.length < 2 then none
      else
        let artifact := "-".intercalate rest.dropLast
        if isSemverGroup g1 && isArtifactName artifact && isSemverGroup g3 then
          some (g1, artifact, g3)
        else none

/-- `version_parser.VersionInfo`. -/
structure VersionInfo where
  sbom_version : String
  depsdev_version : String
  original_string : String
  is_herodevs : Bool
  metadata : List (String × String)
  deriving Repr, DecidableEq

namespace VersionParser

/-- `VersionParser.parse` (lines 43-81). -/
def parse (version : String) : VersionInfo :=
  match herodevsMatch version with
  | some (original_version, artifact_name, patched_version) =>
    { sbom_version := patched_version
      depsdev_version := original_version
      original_string := version
      is_herodevs := true
      metadata :=
        [("herodevs:nes", "true"),
         ("herodevs:upstream-version", original_version),
         ("herodevs:patched-version", patched_version),
         ("herodevs:artifact", artifact_name),
         ("supplier", "HeroDevs")] }
  | none =>
    { sbom_version := version
      depsdev_version := version
      original_string := version
      is_herodevs := false
      metadata := [] }

/-- `VersionParser.get_depsdev_version` (lines 83-98). -/
def get_depsdev_version (version : String) : String :=
  (parse version).depsdev_version

/-- `VersionParser.get_sbom_version` (lines 100-115). -/
def get_sbom_version (version : String) : String :=
  (parse version).sbom_version

end VersionParser

/-! ## `api_client.py` — DepsDevClient

HTTP is an explicit oracle from the request URL to an outcome. A response
carries the parsed JSON body as `Option RawGraph` (`none` when the body is
not valid JSON of the expected shape; `requests`' `response.json()` then
raises a `RequestException` subclass, which line 68 catches). -/

/-- One node of a deps.dev `:dependencies` response
(`versionKey` fields plus `relation`). -/
structure RawNode where
  system : String
  name : String
  version : String
  relation : String
  deriving Repr, DecidableEq

/-- A deps.dev `:dependencies` response body: nodes plus `fromNode`/`toNode`
index pairs (either endpoint may be absent in malformed bodies). -/
structure RawGraph where
  nodes : List RawNode
  edges : List (Option Nat × Option Nat)
  deriving Repr, DecidableEq

/-- Outcome of one `session.get`. -/
inductive HttpOutcome where
  /-- `requests.RequestException`: network failure or timeout. -/
  | failure : HttpOutcome
  /-- A response with its status code and parsed body. -/
  | response (status : Nat) (body : Option RawGraph) : HttpOutcome
  deriving Repr, DecidableEq

/-- An unreserved character per `urllib.parse.quote` with `safe=''`. -/
def isUrlUnreserved (c : Char) : Bool :=
  c.isAlphanum || c = '-' || c = '.' || c = '_' || c = '~'

/-- Upper-case hex digit of a nibble. -/
def hexDigitChar (n : Nat) : Char :=
  if n < 10 then Char.ofNat ('0'.toNat + n) else Char.ofNat ('A'.toNat + n - 10)

/-- `urllib.parse.quote(s, safe='')` for ASCII strings: percent-encode
every non-unreserved character. -/
def urlQuote (s : String) : String :=
  ⟨(s.data.map (fun c =>
      if isUrlUnreserved c then [c]
      else ['%', hexDigitChar (c.toNat / 16 % 16), hexDigitChar (c.toNat % 16)])).flatten⟩

/-- The request URL built by `get_dependency_graph` (lines 42-50). -/
def depsDevUrl (package : Package) : String :=
  let depsdev_version := VersionParser.get_depsdev_version package.version
  let encoded_name := urlQuote package.name
  "https://api.deps.dev/v3/systems/" ++ package.system ++ "/packages/"
    ++ encoded_name ++ "/versions/" ++ depsdev_version ++ ":dependencies"

namespace DepsDevClient

/-- `DepsDevClient.get_dependency_graph` (lines 28-70): parsed body on
HTTP 200, `none` on any non-200 status, unparseable body, or network
failure; the `try`/`except requests.RequestException` makes the function
total. -/
def get_dependency_graph (http : String → HttpOutcome) (package : Package) :
    Option RawGraph :=
  match http (depsDevUrl package) with
  | .failure => none
  | .response status body =>
    if status = 200 then
      match body with
      | some g => some g
      | none => none
    else none

end DepsDevClient

/-! ## `formatters.py` — CycloneDX scope mapping -/

/-- `cyclonedx.model.component.ComponentScope`. -/
inductive ComponentScope where
  | required
  | optional
  | excluded
  deriving Repr, DecidableEq

/-- `OutputFormatter._maven_scope_to_cyclonedx` (lines 386-409): an empty
scope defaults to `compile`; matching is on the lower-cased scope; anything
unrecognised falls through to `REQUIRED`. -/
def maven_scope_to_cyclonedx (maven_scope : String) : ComponentScope :=
  let ms := if maven_scope = "" then "compile" else maven_scope
  let scope_lower := pyLower ms
  if scope_lower = "optional" then .optional
  else if scope_lower = "test" ∨ scope_lower = "provided"
       ∨ scope_lower = "system" ∨ scope_lower = "excluded" then .excluded
  else if scope_lower = "compile" ∨ scope_lower = "runtime"
       ∨ scope_lower = "required" then .required
  else .required

/-! ## `graph_builder.py` — global graph state

One node per package identity; a node's children are node identities.
`DependencyNode.package` is always the canonical `all_packages` entry of
the same identity (nodes are created from `self.all_packages[full_name]`,
lines 429-441 and 390-395), so mutating a package object is modelled as
updating `all_packages` at that identity. Node object identity equals
identity-string equality for canonical nodes. -/

structure GState where
  /-- `all_packages`: identity → canonical `Package`. -/
  all_packages : List (String × Package)
  /-- `all_nodes`: identity → that node's list of child identities. -/
  all_nodes : List (String × List String)
  /-- `raw_graphs`: fetched key → identity of the returned root node. -/
  raw_graphs : List (String × String)
  /-- `parent_map`: child identity → parent identities (a set). -/
  parent_map : List (String × List String)
  /-- `root_nodes` (identities). -/
  root_nodes : List String
  /-- `dependency_management`: name key → version. -/
  dependency_management : List (String × String)
  /-- `_name_to_system`: name → lower-cased system. -/
  name_to_system : List (String × String)
  /-- `exclusions`: parent name → excluded child names. -/
  exclusions : List (String × List String)
  /-- `resolution_strategy`: `"maven"` or `"highest"`. -/
  resolution_strategy : String
  deriving Repr, DecidableEq

/-- The canonical package of a node identity (`node.package`; total with a
placeholder default, which no reachable Python code path observes because
every node's package is registered). -/
def pkgOf (st : GState) (id : String) : Package :=
  (getA st.all_packages id).getD (mkPackage "" "" "")

/-- A node's children list (`node.children`, as identities). -/
def childrenOf (st : GState) (id : String) : List String :=
  (getA st.all_nodes id).getD []

/-- Update the canonical package object at `id`. -/
def modPkg (st : GState) (id : String) (f : Package → Package) : GState :=
  { st with all_packages := modA st.all_packages id f }

/-- `_get_base_key` (lines 116-121): `"{system.lower()}:{name}"`. -/
def base_key (pkg : Package) : String :=
  pyLower pkg.system ++ ":" ++ pkg.name

/-- `self.parent_map[child].add(parent)` (`defaultdict(set)`). -/
def addParent (st : GState) (child parent : String) : GState :=
  let cur := (getA st.parent_map child).getD []
  if parent ∈ cur then st
  else { st with parent_map := putA st.parent_map child (cur ++ [parent]) }

/-- `DependencyNode.add_child`: append the child unless already present. -/
def addChild (st : GState) (parent child : String) : GState :=
  match getA st.all_nodes parent with
  | none => st
  | some cs =>
    if child ∈ cs then st
    else { st with all_nodes := putA st.all_nodes parent (cs ++ [child]) }

/-- `_is_excluded` (lines 794-798). -/
def is_excluded (package : Package) (parent_exclusions : List String) : Bool :=
  package.name ∈ parent_exclusions

/-! ### Fetch-and-parse (`_fetch_raw_dependency_graph`,
`_parse_dependency_graph`, `_build_graph_from_adjacency`)

These are needed by the managed-override phase, which fetches missing
managed versions. The recursion of `_build_graph_from_adjacency` passes
`visited.copy()` to each child call, i.e. the visited set is path-local;
this is direct to model with an immutable visited argument. Fuel stands in
for the termination argument (finitely many acyclic index paths); the fuel
passed at call sites exceeds the response size. -/

/-- The first pass of `_parse_dependency_graph` (lines 422-445): register
packages and nodes for every response node, record `_name_to_system`, and
return the response-index → identity map plus the SELF index. -/
def registerResponseNodes (graph : RawGraph) (st : GState) :
    GState × List (Nat × String) × Option Nat :=
  let step := fun (acc : GState × List (Nat × String) × Option Nat)
                  (iv : Nat × RawNode) =>
    let (st, node_map, self_idx) := acc
    let n := iv.2
    let full_name := pyLower n.system ++ ":" ++ n.name ++ ":" ++ n.version
    let newPkg := mkPackage n.system n.name n.version
    let st :=
      if hasA st.all_packages full_name then st
      else { st with all_packages := putA st.all_packages full_name newPkg }
    let st :=
      if hasA st.dependency_management n.name && !hasA st.name_to_system n.name then
        { st with name_to_system := putA st.name_to_system n.name (pyLower n.system) }
      else st
    let st :=
      if hasA st.all_nodes full_name then st
      else { st with all_nodes := putA st.all_nodes full_name [] }
    let self_idx := if n.relation = "SELF" then some iv.1 else self_idx
    (st, putA node_map iv.1 full_name, self_idx)
  graph.nodes.enum.foldl step (st, [], none)

/-- The adjacency map of a response (lines 447-453), skipping edges with a
missing endpoint. -/
def responseAdjacency (graph : RawGraph) : List (Nat × List Nat) :=
  graph.edges.foldl (fun adj e =>
    match e with
    | (some f, some t) => putA adj f ((getA adj f).getD [] ++ [t])
    | _ => adj) []

/-- `_build_graph_from_adjacency` (lines 465-507): walk the response from
an index, adding merged child edges and parent links, skipping children
excluded by the parent's exclusion set, and re-descending each child with
a copy of the current visited path (the `for child_index` loop is the
fold). Children whose index is missing from `node_map` are skipped
(Python raises `KeyError` there, swallowed by the caller's `try`). One
fuel unit per descent level; a path of visited indices never exceeds the
response size. -/
def buildAdjNode (node_map : List (Nat × String))
    (adjacency : List (Nat × List Nat)) :
    Nat → Nat → List Nat → GState → GState
  | 0, _, _, st => st
  | fuel + 1, idx, visited, st =>
    if idx ∈ visited then st
    else
      match getA node_map idx with
      | none => st
      | some curId =>
        let pex := (getA st.exclusions (pkgOf st curId).name).getD []
        let visited := idx :: visited
        ((getA adjacency idx).getD []).foldl (fun st ci =>
          match getA node_map ci with
          | none => st
          | some childId =>
            if is_excluded (pkgOf st childId) pex then st
            else
              let st := addChild st curId childId
              let st := addParent st childId curId
              buildAdjNode node_map adjacency fuel ci visited st) st

/-- `_parse_dependency_graph` (lines 400-463). An empty node list, or a
response without a SELF node, returns a fresh unregistered
`DependencyNode` in Python and leaves the global state unchanged. -/
def parse_dependency_graph (st : GState) (graph : RawGraph)
    (root_package : Package) : GState :=
  if graph.nodes.isEmpty then st
  else
    let reg := registerResponseNodes graph st
    let adjacency := responseAdjacency graph
    match reg.2.2 with
    | some i =>
      buildAdjNode reg.2.1 adjacency (graph.nodes.length + 1) i [] reg.1
    | none => reg.1

/-- `_fetch_raw_dependency_graph` (lines 376-398): on a missing response,
reuse an existing node of the same identity or register a leaf node;
otherwise parse the response into the global graph. `root_package` is also
the object registered for the leaf. -/
def fetch_raw_dependency_graph (http : String → HttpOutcome) (st : GState)
    (package : Package) : GState :=
  match DepsDevClient.get_dependency_graph http package with
  | none =>
    if hasA st.all_nodes package.full_name then st
    else
      { st with
        all_nodes := putA st.all_nodes package.full_name []
        all_packages := putA st.all_packages package.full_name package }
  | some graph => parse_dependency_graph st graph package

/-! ### `_apply_managed_version_overrides` (lines 123-209) -/

/-- The `nodes_to_replace` scan (lines 139-147): for every node whose
`_get_base_key` has a dependency-management entry with a different
version, map its identity to the managed identity. -/
def nodesToReplace (st : GState) : List (String × String) :=
  st.all_nodes.foldl (fun acc entry =>
    let pkg := pkgOf st entry.1
    match getA st.dependency_management (base_key pkg) with
    | some managed_version =>
      if managed_version ≠ pkg.version then
        putA acc entry.1
          (pyLower pkg.system ++ ":" ++ pkg.name ++ ":" ++ managed_version)
      else acc
    | none => acc) []

/-- The fetch loop of `_apply_managed_version_overrides` (lines 153-178):
fetch each managed identity unless it already has a node or its identity
does not split into exactly three `:`-separated parts. -/
def fetchManagedVersions (http : String → HttpOutcome)
    (replacements : List (String × String)) (st : GState) : GState :=
  replacements.foldl (fun st wc =>
    if hasA st.all_nodes wc.2 then st
    else
      let parts := splitChar ':' wc.2
      if parts.length ≠ 3 then st
      else
        fetch_raw_dependency_graph http st
          (mkPackage (parts.getD 0 "") (parts.getD 1 "") (parts.getD 2 ""))) st

/-- The marking loop of `_apply_managed_version_overrides` (lines
180-207): when both the wrong and the managed node exist, mark the wrong
package excluded with reason `override-loser` and `winning_version` taken
from the third `:`-part of the managed identity (`"unknown"` when the
identity does not have exactly three parts), and record the defeat on the
managed package. -/
def markManagedOverrides (replacements : List (String × String))
    (st : GState) : GState :=
  replacements.foldl (fun st wc =>
    if hasA st.all_nodes wc.1 && hasA st.all_nodes wc.2 then
      let parts := splitChar ':' wc.2
      let managed_version := if parts.length = 3 then parts.getD 2 "" else "unknown"
      let wrong_version := (pkgOf st wc.1).version
      let st := modPkg st wc.1 (fun p =>
        { p with scope := "excluded"
                 scope_reason := some "override-loser"
                 winning_version := some managed_version })
      modPkg st wc.2 (fun p =>
        { p with
          defeated_versions :=
            if wrong_version ∈ p.defeated_versions then p.defeated_versions
            else p.defeated_versions ++ [wrong_version]
          is_override_winner := true })
    else st) st

/-- `_apply_managed_version_overrides` (lines 123-209). -/
def apply_managed_version_overrides (http : String → HttpOutcome)
    (st : GState) : GState :=
  if st.dependency_management.isEmpty then st
  else
    let replacements := nodesToReplace st
    if replacements.isEmpty then st
    else
      let st := fetchManagedVersions http replacements st
      markManagedOverrides replacements st

/-! ### Winner determination -/

/-- Generous fuel bound for the graph traversals: more than the number of
node identities plus all child-list entries plus the roots. -/
def traversalFuel (st : GState) : Nat :=
  st.all_nodes.foldl (fun n entry => n + 1 + entry.2.length) 0
    + st.root_nodes.length + st.all_packages.length + 1

/-- The breadth-first worker of `_determine_maven_winning_versions`
(lines 509-556): `first` maps a base key to its recorded
`(version, depth)`; nearer replaces, ties go to the strictly higher
version. Fuel is spent on visits only. -/
def mavenBFS (st : GState) :
    Nat → List (String × Nat) → List String →
    List (String × (String × Nat)) → List (String × (String × Nat))
  | 0, _, _, first => first
  | _ + 1, [], _, first => first
  | fuel + 1, (id, depth) :: queue, visited, first =>
    let pkg := pkgOf st id
    let bk := base_key pkg
    let node_id := bk ++ ":" ++ pkg.version
    if node_id ∈ visited then mavenBFS st fuel queue visited first
    else
      let visited := node_id :: visited
      let first :=
        match getA first bk with
        | none => putA first bk (pkg.version, depth)
        | some ev =>
          if depth < ev.2 then putA first bk (pkg.version, depth)
          else if depth = ev.2 && compare_versions pkg.version ev.1 > 0 then
            putA first bk (pkg.version, depth)
          else first
      mavenBFS st fuel
        (queue ++ (childrenOf st id).map (fun c => (c, depth + 1)))
        visited first

/-- `_determine_maven_winning_versions` (lines 509-556). -/
def determine_maven_winning_versions (st : GState) (roots : List String) :
    List (String × String) :=
  (mavenBFS st (traversalFuel st) (roots.map (fun r => (r, 0))) [] []).map
    (fun e => (e.1, e.2.1))

/-- Priority 1 of `_determine_highest_winning_versions` (lines 568-574):
seed the winner map from dependency management via `_name_to_system`. -/
def managedSeed (st : GState) : List (String × String) :=
  st.dependency_management.foldl (fun w nv =>
    match getA st.name_to_system nv.1 with
    | some system => putA w (system ++ ":" ++ nv.1) nv.2
    | none => w) []

/-- Priority 2 of `_determine_highest_winning_versions` (lines 576-587):
input-package versions, only when the fetch succeeded and no
higher-priority entry exists. -/
def inputSeed (st : GState) (input_packages : List Package)
    (w : List (String × String)) : List (String × String) :=
  input_packages.foldl (fun w pkg =>
    if !hasA st.raw_graphs pkg.full_name then w
    else
      let bk := pkg.system ++ ":" ++ pkg.name
      if hasA w bk then w else putA w bk pkg.version) w

/-- Priority 3 of `_determine_highest_winning_versions` (lines 589-603):
replace the candidate by any strictly higher version among the nodes. -/
def highestPass (st : GState) (w : List (String × String)) :
    List (String × String) :=
  st.all_nodes.foldl (fun w entry =>
    let pkg := pkgOf st entry.1
    let bk := base_key pkg
    match getA w bk with
    | some cur =>
      if compare_versions pkg.version cur > 0 then putA w bk pkg.version else w
    | none => putA w bk pkg.version) w

/-- `_determine_highest_winning_versions` (lines 558-604): the three
priority passes composed. -/
def determine_highest_winning_versions (st : GState)
    (input_packages : List Package) : List (String × String) :=
  highestPass st (inputSeed st input_packages (managedSeed st))

/-- The winner map computed by `apply_conflict_resolution` (lines
228-234): strategy dispatch; for `highest` the input packages are the
`all_packages` entries of the `raw_graphs` keys. -/
def winningVersionsOf (st : GState) : List (String × String) :=
  if st.resolution_strategy = "maven" then
    determine_maven_winning_versions st st.root_nodes
  else
    determine_highest_winning_versions st
      (st.raw_graphs.map (fun kv => pkgOf st kv.1))

/-! ### Edge redirection and loser marking -/

/-- `_redirect_edges_to_winners` (lines 800-851): for each loser, link all
its parents to the winner node (if absent) and record the new parent; the
falsy-winning-version guard of lines 818-820 skips an empty-string
winner. -/
def redirect_edges_to_winners (losers : List String)
    (winning_versions : List (String × String)) (st : GState) : GState :=
  losers.foldl (fun st loser_name =>
    match getA st.all_nodes loser_name with
    | none => st
    | some _ =>
      let loser_pkg := pkgOf st loser_name
      let bk := base_key loser_pkg
      match getA winning_versions bk with
      | none => st
      | some winning_version =>
        if winning_version = "" then st
        else
          let winner_name := bk ++ ":" ++ winning_version
          match getA st.all_nodes winner_name with
          | none => st
          | some _ =>
            ((getA st.parent_map loser_name).getD []).foldl
              (fun st parent_name =>
                match getA st.all_nodes parent_name with
                | none => st
                | some pchildren =>
                  if winner_name ∈ pchildren then st
                  else addParent (addChild st parent_name winner_name)
                         winner_name parent_name) st) st

/-- The loser list of `apply_conflict_resolution` step 2 (lines 239-252);
line 247 tests the winning version for truthiness, so an empty-string
winner marks no losers. -/
def losersOf (st : GState) (winning_versions : List (String × String)) :
    List String :=
  st.all_nodes.foldl (fun acc entry =>
    let pkg := pkgOf st entry.1
    match getA winning_versions (base_key pkg) with
    | some winning_version =>
      if winning_version ≠ "" ∧ pkg.version ≠ winning_version then
        acc ++ [entry.1]
      else acc
    | none => acc) []

/-- Step 3 (lines 254-263): defeated versions grouped by base key. -/
def defeatedByBaseKey (st : GState) (losers : List String) :
    List (String × List String) :=
  losers.foldl (fun m loser_name =>
    let lpkg := pkgOf st loser_name
    let bk := base_key lpkg
    putA m bk ((getA m bk).getD [] ++ [lpkg.version])) []

/-- One iteration of step 5 (lines 270-291): mark one loser excluded,
record the winning version and strategy; a pre-existing `scope_reason` is
preserved. -/
def markLoserStep (winning_versions : List (String × String)) (st : GState)
    (loser_name : String) : GState :=
  let wv := getA winning_versions (base_key (pkgOf st loser_name))
  modPkg st loser_name (fun p =>
    let p := { p with scope_strategy := some st.resolution_strategy }
    if p.scope_reason = none then
      { p with scope := "excluded", scope_reason := some "loser"
               winning_version := wv }
    else
      { p with scope := "excluded", winning_version := wv })

/-- Step 5 (lines 269-291) over all losers. -/
def markLosers (st : GState) (losers : List String)
    (winning_versions : List (String × String)) : GState :=
  losers.foldl (markLoserStep winning_versions) st

/-- One iteration of step 6 (lines 294-308): record one winner's defeated
versions (appended, deduplicated) and its strategy, when a node exists
and at least one version was defeated. -/
def markWinnerStep (defeated_map : List (String × List String))
    (st : GState) (bw : String × String) : GState :=
  let defeated := (getA defeated_map bw.1).getD []
  if defeated ≠ [] then
    let winner_full_name := bw.1 ++ ":" ++ bw.2
    if hasA st.all_nodes winner_full_name then
      modPkg st winner_full_name (fun p =>
        let p := { p with scope_strategy := some st.resolution_strategy }
        let dv := defeated.foldl
          (fun dv d => if d ∈ dv then dv else dv ++ [d]) p.defeated_versions
        { p with defeated_versions := dv })
    else st
  else st

/-- Step 6 (lines 293-308) over all winner entries. -/
def markWinners (st : GState) (winning_versions : List (String × String))
    (defeated_map : List (String × List String)) : GState :=
  winning_versions.foldl (markWinnerStep defeated_map) st

/-! ### `_mark_loser_subtrees_excluded` (lines 853-912) -/

/-- The `conflict-resolution-subtree` marking of lines 901-904. -/
def crsMark (p : Package) : Package :=
  { p with scope := "excluded"
           scope_reason := some "conflict-resolution-subtree" }

/-- One child iteration of `_mark_subtree_excluded_recursive` (lines
874-912): a not-yet-visited, not-yet-excluded child is marked with
`crsMark` iff all of its `parent_map` parents are in `excluded_parents`,
and its subtree is then walked (`descend`) with the child added to
`excluded_parents`. The visited set is shared across the whole pass;
`excluded_parents` is branch-local. -/
def markSubtreeStep
    (descend : GState → List String → List String → List String →
      GState × List String)
    (excluded_parents : List String) (acc : GState × List String)
    (child : String) : GState × List String :=
  let (st, visited) := acc
  if child ∈ visited then acc
  else
    let visited := child :: visited
    if (pkgOf st child).scope = "excluded" then (st, visited)
    else
      let child_parents := (getA st.parent_map child).getD []
      if child_parents.any (fun p => !(excluded_parents.contains p)) then
        (st, visited)
      else
        let st := modPkg st child crsMark
        descend st (childrenOf st child) visited (child :: excluded_parents)

/-- The recursion of `_mark_subtree_excluded_recursive`: the sibling loop
is the fold; one fuel unit per descent level. -/
def markSubtreeKids :
    Nat → GState → List String → List String → List String →
    GState × List String
  | 0, st, _, visited, _ => (st, visited)
  | fuel + 1, st, children, visited, excluded_parents =>
    children.foldl
      (markSubtreeStep (markSubtreeKids fuel) excluded_parents)
      (st, visited)

/-- One loser iteration of `_mark_loser_subtrees_excluded` (lines
862-871). -/
def markLoserSubtreeStep (losers : List String)
    (acc : GState × List String) (loser_name : String) :
    GState × List String :=
  match getA acc.1.all_nodes loser_name with
  | none => acc
  | some _ =>
    markSubtreeKids (traversalFuel acc.1) acc.1
      (childrenOf acc.1 loser_name) acc.2 losers

/-- `_mark_loser_subtrees_excluded` (lines 853-872): one walk per loser,
`excluded_parents` starting at the loser set, visited shared. -/
def mark_loser_subtrees_excluded (losers : List String) (st : GState) :
    GState :=
  (losers.foldl (markLoserSubtreeStep losers) (st, [])).1

/-- Graph well-formedness: every child identity of a node is itself a
node (canonical nodes are created for every response node and edges only
link canonical nodes). -/
def childClosed (st : GState) : Prop :=
  ∀ entry ∈ st.all_nodes, ∀ c ∈ entry.2, (getA st.all_nodes c).isSome

/-- Graph well-formedness: every node's package is registered under the
same identity (`DependencyNode.package` is the canonical
`all_packages` entry). -/
def nodesHavePackages (st : GState) : Prop :=
  ∀ entry ∈ st.all_nodes, (getA st.all_packages entry.1).isSome

/-! ### `_propagate_excluded_scopes` (lines 939-1012) -/

/-- `_collect_reachable_packages_by_scope` as a worklist walk: the
returned visited list is the set of identities reachable from the stack.
Fuel is spent on first visits only. -/
def dfsReach (st : GState) : Nat → List String → List String → List String
  | 0, _, visited => visited
  | _ + 1, [], visited => visited
  | fuel + 1, id :: stack, visited =>
    if id ∈ visited then dfsReach st fuel stack visited
    else dfsReach st fuel (childrenOf st id ++ stack) (id :: visited)

/-- Append the newly reachable identities to an accumulating set (the
Python sets `test_reachable` / `required_reachable` are shared across
roots while each root's walk has a fresh visited set). -/
def addReach (st : GState) (root : String) (acc : List String) :
    List String :=
  (dfsReach st (traversalFuel st) [root] []).foldl
    (fun acc n => if n ∈ acc then acc else acc ++ [n]) acc

/-- Roots are test-like when their scope (defaulted to `required` when
falsy) is `test`, `provided`, `system` or `excluded` (lines 960-971). -/
def rootIsTestLike (st : GState) (root : String) : Bool :=
  let s := (pkgOf st root).scope
  let root_scope := if s = "" then "required" else s
  root_scope = "test" || root_scope = "provided" || root_scope = "system"
    || root_scope = "excluded"

/-- The `test_reachable` / `required_reachable` pair of
`_propagate_excluded_scopes` (lines 956-971). -/
def reachPair (st : GState) : List String × List String :=
  st.root_nodes.foldl (fun (acc : List String × List String) root =>
    if rootIsTestLike st root then (addReach st root acc.1, acc.2)
    else (acc.1, addReach st root acc.2)) ([], [])

/-- One iteration of the marking loop of `_propagate_excluded_scopes`
(lines 975-988): skip required-reachable names, unknown nodes and
already-excluded packages; otherwise mark `excluded` /
`test-dependency`. -/
def propStep (required_reachable : List String) (st : GState)
    (pkg_name : String) : GState :=
  if pkg_name ∈ required_reachable then st
  else
    match getA st.all_nodes pkg_name with
    | none => st
    | some _ =>
      if (pkgOf st pkg_name).scope ≠ "excluded" then
        modPkg st pkg_name (fun p =>
          { p with scope := "excluded"
                   scope_reason := some "test-dependency" })
      else st

/-- The marking loop of `_propagate_excluded_scopes` (lines 973-988). -/
def propagateMark (required_reachable : List String)
    (test_reachable : List String) (st : GState) : GState :=
  test_reachable.foldl (propStep required_reachable) st

/-- `_propagate_excluded_scopes` (lines 939-991): build the two
reachability sets, then mark every test-only-reachable, not-yet-excluded
node `excluded` / `test-dependency`. -/
def propagate_excluded_scopes (st : GState) : GState :=
  if st.root_nodes.isEmpty then st
  else propagateMark (reachPair st).2 (reachPair st).1 st

/-- `apply_conflict_resolution` (lines 211-318): determine winners,
identify losers, collect defeats, redirect edges, mark losers and
winners, exclude orphaned loser subtrees, then propagate scopes. -/
def apply_conflict_resolution (st : GState) : GState :=
  if st.root_nodes.isEmpty then st
  else
    let winning_versions := winningVersionsOf st
    let losers := losersOf st winning_versions
    let defeated_map := defeatedByBaseKey st losers
    let st := redirect_edges_to_winners losers winning_versions st
    let st := markLosers st losers winning_versions
    let st := markWinners st winning_versions defeated_map
    let st := mark_loser_subtrees_excluded losers st
    propagate_excluded_scopes st

/-! ## `formatters.py` — SBOM assembly (`format_as_sbom`, lines 109-271)

The CycloneDX library's serialization is reproduced at the level of the
final `ordered_sbom` dictionary that `format_as_sbom` builds and dumps:
its per-run inputs (the `uuid4()` serial number and the `datetime.utcnow()`
timestamp, lines 121 and 151) are explicit parameters, and `json.dumps` is
a concrete deterministic renderer.

Python's `list.sort` is stable; `pySortBy` below is stable insertion
sort. -/

/-- Stable ascending sort by a strict comparison (Python `list.sort`). -/
def insertBy {A : Type} (lt : A → A → Bool) (x : A) : List A → List A
  | [] => [x]
  | y :: ys => if lt y x then y :: insertBy lt x ys else x :: y :: ys

/-- Stable ascending sort by a strict comparison. -/
def pySortBy {A : Type} (lt : A → A → Bool) : List A → List A
  | [] => []
  | x :: xs => insertBy lt x (pySortBy lt xs)

/-- `OutputFormatter._build_purl` (lines 450-458). -/
def build_purl (pkg : Package) : String :=
  if pyLower pkg.system = "maven" then
    "pkg:maven/" ++ ⟨pkg.name.data.map (fun c => if c = ':' then '/' else c)⟩
      ++ "@" ++ pkg.version
  else
    "pkg:" ++ pyLower pkg.system ++ "/" ++ pkg.name ++ "@" ++ pkg.version

/-- The group/name split of `_package_to_component` (lines 414-419):
Maven names containing `:` split at the first `:`. -/
def splitGroupName (pkg : Package) : Option String × String :=
  if pyLower pkg.system = "maven" && pkg.name.data.contains ':' then
    let sp := pkg.name.data.span (fun c => c ≠ ':')
    (some ⟨sp.1⟩, ⟨sp.2.drop 1⟩)
  else (none, pkg.name)

/-- One entry of the reordered `components` array (lines 195-209): the
fields emitted, in their fixed order `type, bom-ref, group, name, version,
scope, purl, tags`; `none` fields are dropped at rendering. -/
structure ComponentJson where
  ctype : String
  bom_ref : String
  group : Option String
  name : String
  version : String
  scope : Option ComponentScope
  purl : String
  tags : List String
  deriving Repr, DecidableEq

/-- `OutputFormatter._package_to_component` (lines 411-448). -/
def package_to_component (pkg : Package) : ComponentJson :=
  let gn := splitGroupName pkg
  let purl_str := build_purl pkg
  let tags :=
    (match pkg.scope_reason with
     | some r => ["scope:" ++ r]
     | none => []) ++
    (match pkg.winning_version with
     | some w => ["winner:" ++ w]
     | none => [])
  { ctype := "library"
    bom_ref := purl_str
    group := gn.1
    name := gn.2
    version := pkg.version
    scope :=
      if pkg.scope ≠ "" then some (maven_scope_to_cyclonedx pkg.scope)
      else none
    purl := purl_str
    tags := tags }

/-- `_build_dependency_map` / `_collect_dependencies_from_tree` (lines
338-384) as a preorder worklist over the shared-node graph: visited is
keyed by package full name; each first visit stores the node's
de-duplicated direct child packages (the `or len > 0` overwrite guard of
line 379 included). -/
def collectDeps (st : GState) :
    Nat → List String → List (String × List Package) → List String →
    List (String × List Package) × List String
  | 0, _, m, visited => (m, visited)
  | _ + 1, [], m, visited => (m, visited)
  | fuel + 1, id :: stack, m, visited =>
    let node_id := (pkgOf st id).full_name
    if node_id ∈ visited then collectDeps st fuel stack m visited
    else
      let visited := node_id :: visited
      let children := childrenOf st id
      let unique := (children.map (pkgOf st)).foldl (fun acc c =>
        if acc.any (fun d => d.full_name = c.full_name) then acc
        else acc ++ [c]) []
      let m :=
        if !hasA m node_id || unique ≠ [] then putA m node_id unique else m
      collectDeps st fuel (children ++ stack) m visited

/-- `_build_dependency_map` over the root list (shared map and visited). -/
def build_dependency_map (st : GState) (trees : List String) :
    List (String × List Package) :=
  (collectDeps st (traversalFuel st) trees [] []).1

/-- `metadata['timestamp']` fix-up (lines 244-252): keep the first
`YYYY-MM-DDTHH:MM:SS` prefix and append `Z`; leave the string unchanged
when the prefix does not match. -/
def fixTimestamp (ts : String) : String :=
  let shape : List (Char → Bool) :=
    [Char.isDigit, Char.isDigit, Char.isDigit, Char.isDigit, (· = '-'),
     Char.isDigit, Char.isDigit, (· = '-'), Char.isDigit, Char.isDigit,
     (· = 'T'), Char.isDigit, Char.isDigit, (· = ':'), Char.isDigit,
     Char.isDigit, (· = ':'), Char.isDigit, Char.isDigit]
  let pre := ts.data.take 19
  if pre.length = 19 && ((pre.zip shape).all fun pc => pc.2 pc.1) then
    (⟨pre⟩ : String) ++ "Z"
  else ts

/-- The final `ordered_sbom` dictionary (lines 254-263), with the
constant tool metadata of lines 123-149 folded into fixed fields. -/
structure SbomDoc where
  bomFormat : String
  specVersion : String
  serialNumber : String
  version : Nat
  timestamp : String
  toolPurl : String
  properties : List (String × String)
  components : List ComponentJson
  dependencies : List (String × List String)
  deriving Repr, DecidableEq

/-- `OutputFormatter.format_as_sbom` (lines 109-271) up to rendering:
components mapped from the packages and sorted by purl; `dependsOn`
filtered to packages present in the collection, purl-mapped and sorted;
dependency entries sorted by `ref`; serial number `urn:uuid:{uuid}`;
timestamp fixed to `...Z` form. -/
def format_as_sbomDoc (st : GState) (packages : List Package)
    (trees : List String) (command_line : Option String)
    (uuid clock : String) : SbomDoc :=
  let dependency_map := build_dependency_map st trees
  let components := packages.map package_to_component
  let dependencies := packages.map (fun pkg =>
    let purl := build_purl pkg
    let direct := (getA dependency_map pkg.full_name).getD []
    let depends_on := (direct.filter (fun dep =>
      packages.any (fun q => q.full_name = dep.full_name))).map build_purl
    (purl, pySortBy pyStrLt depends_on))
  { bomFormat := "CycloneDX"
    specVersion := "1.6"
    serialNumber := "urn:uuid:" ++ uuid
    version := 1
    timestamp := fixTimestamp clock
    toolPurl := "pkg:github/planetlevel/deptrast@3.0.1"
    properties :=
      match command_line with
      | some cl => [("commandLine", cl)]
      | none => []
    components := pySortBy (fun a b => pyStrLt a.purl b.purl) components
    dependencies := pySortBy (fun a b => pyStrLt a.1 b.1) dependencies }

/-- A JSON string literal (the identifiers at play contain no characters
needing escapes). -/
def jsonStr (s : String) : String := "\"" ++ s ++ "\""

/-- Render a string array, with Python's `[] → [ ]` replacement of
line 269 applied. -/
def jsonStrArr (xs : List String) : String :=
  match xs with
  | [] => "[ ]"
  | x :: rest =>
    "[" ++ (rest.foldl (fun acc y => acc ++ ", " ++ jsonStr y) (jsonStr x))
      ++ "]"

/-- Scope field value. -/
def scopeValue : ComponentScope → String
  | .required => "required"
  | .optional => "optional"
  | .excluded => "excluded"

/-- Render one component in the fixed field order, dropping `none`
fields. -/
def renderComponent (c : ComponentJson) : String :=
  "\x7b\"type\" : " ++ jsonStr c.ctype
    ++ ", \"bom-ref\" : " ++ jsonStr c.bom_ref
    ++ (match c.group with
        | some g => ", \"group\" : " ++ jsonStr g
        | none => "")
    ++ ", \"name\" : " ++ jsonStr c.name
    ++ ", \"version\" : " ++ jsonStr c.version
    ++ (match c.scope with
        | some s => ", \"scope\" : " ++ jsonStr (scopeValue s)
        | none => "")
    ++ ", \"purl\" : " ++ jsonStr c.purl
    ++ (match c.tags with
        | [] => ""
        | tags => ", \"tags\" : " ++ jsonStrArr tags)
    ++ "\x7d"

/-- Render one dependency entry. -/
def renderDependency (d : String × List String) : String :=
  "\x7b\"ref\" : " ++ jsonStr d.1 ++ ", \"dependsOn\" : " ++ jsonStrArr d.2
    ++ "\x7d"

/-- Concatenate rendered entries. -/
def jsonArr (xs : List String) : String :=
  match xs with
  | [] => "[ ]"
  | x :: rest => "[" ++ (rest.foldl (fun acc y => acc ++ ", " ++ y) x) ++ "]"

/-- `json.dumps(ordered_sbom, ...)` as a concrete deterministic renderer
of the ordered document. -/
def renderDoc (d : SbomDoc) : String :=
  "\x7b\"bomFormat\" : " ++ jsonStr d.bomFormat
    ++ ", \"specVersion\" : " ++ jsonStr d.specVersion
    ++ ", \"serialNumber\" : " ++ jsonStr d.serialNumber
    ++ ", \"version\" : " ++ toString d.version
    ++ ", \"metadata\" : \x7b\"timestamp\" : " ++ jsonStr d.timestamp
    ++ ", \"tools\" : \x7b\"components\" : [" ++ jsonStr d.toolPurl ++ "]\x7d"
    ++ (match d.properties with
        | [] => ""
        | props => ", \"properties\" : "
            ++ jsonArr (props.map (fun p =>
                 "\x7b\"name\" : " ++ jsonStr p.1 ++ ", \"value\" : "
                   ++ jsonStr p.2 ++ "\x7d")))
    ++ "\x7d, \"components\" : " ++ jsonArr (d.components.map renderComponent)
    ++ ", \"dependencies\" : "
    ++ jsonArr (d.dependencies.map renderDependency)
    ++ "\x7d"

/-- `format_as_sbom` end to end: document construction then rendering. -/
def format_as_sbom (st : GState) (packages : List Package)
    (trees : List String) (command_line : Option String)
    (uuid clock : String) : String :=
  renderDoc (format_as_sbomDoc st packages trees command_line uuid clock)

/-! ## Concrete states used to evaluate the claims -/

/-- A fresh builder state (`DependencyGraphBuilder.__init__`). -/
def emptyState : GState :=
  { all_packages := []
    all_nodes := []
    raw_graphs := []
    parent_map := []
    root_nodes := []
    dependency_management := []
    name_to_system := []
    exclusions := []
    resolution_strategy := "highest" }

/-- A graph holding `maven:g:a:1.0` with dependency management keyed the
way the POM parser produces it (`"groupId:artifactId" → version`). -/
def overrideStateA : GState :=
  { emptyState with
    dependency_management := [("g:a", "2.0")]
    all_nodes := [("maven:g:a:1.0", [])]
    all_packages := [("maven:g:a:1.0", mkPackage "maven" "g:a" "1.0")] }

/-- The same graph with both versions present and dependency management
keyed `"system:groupId:artifactId"`, the form
`_apply_managed_version_overrides` actually looks up. -/
def overrideStateB : GState :=
  { emptyState with
    dependency_management := [("maven:g:a", "2.0")]
    all_nodes := [("maven:g:a:1.0", []), ("maven:g:a:2.0", [])]
    all_packages :=
      [("maven:g:a:1.0", mkPackage "maven" "g:a" "1.0"),
       ("maven:g:a:2.0", mkPackage "maven" "g:a" "2.0")] }

/-- A managed coordinate `a:b → 1.0` whose graph contains the strictly
higher `maven:a:b:2.0`. -/
def managedLowState : GState :=
  { emptyState with
    dependency_management := [("a:b", "1.0")]
    name_to_system := [("a:b", "maven")]
    all_nodes := [("maven:a:b:2.0", [])]
    all_packages := [("maven:a:b:2.0", mkPackage "maven" "a:b" "2.0")] }

/-- A managed coordinate `a:b → 2.0` with only the lower `1.0` in the
graph. -/
def managedHighState : GState :=
  { emptyState with
    dependency_management := [("a:b", "2.0")]
    name_to_system := [("a:b", "maven")]
    all_nodes := [("maven:a:b:1.0", [])]
    all_packages := [("maven:a:b:1.0", mkPackage "maven" "a:b" "1.0")] }

/-- Two excluded losers `L` and `M`, whose subtrees `L → A → C` and
`M → B → C` join at `C`; `C`'s only parents are `A` and `B`. -/
def diamondState : GState :=
  { emptyState with
    all_nodes :=
      [("L", ["A"]), ("M", ["B"]), ("A", ["C"]), ("B", ["C"]), ("C", [])]
    parent_map :=
      [("A", ["L"]), ("B", ["M"]), ("C", ["A", "B"])]
    all_packages :=
      [("L", { mkPackage "maven" "l" "1.0" with
               scope := "excluded", scope_reason := some "loser" }),
       ("M", { mkPackage "maven" "m" "1.0" with
               scope := "excluded", scope_reason := some "loser" }),
       ("A", mkPackage "maven" "a" "1.0"),
       ("B", mkPackage "maven" "b" "1.0"),
       ("C", mkPackage "maven" "c" "1.0")] }

/-- A test-scoped root `T` over `U`, and a compile root `R` also over
`U`; `V` reachable only through `T`. -/
def scopeState : GState :=
  { emptyState with
    root_nodes := ["T", "R"]
    all_nodes := [("T", ["U", "V"]), ("R", ["U"]), ("U", []), ("V", [])]
    all_packages :=
      [("T", mkPackage "maven" "t" "1.0" "test"),
       ("R", mkPackage "maven" "r" "1.0"),
       ("U", mkPackage "maven" "u" "1.0"),
       ("V", mkPackage "maven" "v" "1.0")] }

/-- A two-version conflict: roots `B`, `C`, with `B → io:2.5` and
`C → io:2.11` under the highest-wins strategy. -/
def conflictState : GState :=
  { emptyState with
    root_nodes := ["maven:x:b:1.0", "maven:x:c:1.0"]
    raw_graphs :=
      [("maven:x:b:1.0", "maven:x:b:1.0"), ("maven:x:c:1.0", "maven:x:c:1.0")]
    all_nodes :=
      [("maven:x:b:1.0", ["maven:commons:io:2.5"]),
       ("maven:x:c:1.0", ["maven:commons:io:2.11"]),
       ("maven:commons:io:2.5", []),
       ("maven:commons:io:2.11", [])]
    parent_map :=
      [("maven:commons:io:2.5", ["maven:x:b:1.0"]),
       ("maven:commons:io:2.11", ["maven:x:c:1.0"])]
    all_packages :=
      [("maven:x:b:1.0", mkPackage "maven" "x:b" "1.0"),
       ("maven:x:c:1.0", mkPackage "maven" "x:c" "1.0"),
       ("maven:commons:io:2.5", mkPackage "maven" "commons:io" "2.5"),
       ("maven:commons:io:2.11", mkPackage "maven" "commons:io" "2.11")] }

/-- A nearest-wins graph whose nearest `maven:g:a` node carries the empty
version (missing response versions default to `""` at
`graph_builder.py:426`): the recorded winning version for that base key
is `""`, which the truthiness guards of steps 2 and 4 then skip. -/
def emptyWinnerState : GState :=
  { emptyState with
    resolution_strategy := "maven"
    root_nodes := ["maven:x:r:1.0"]
    raw_graphs := [("maven:x:r:1.0", "maven:x:r:1.0")]
    all_nodes :=
      [("maven:x:r:1.0", ["maven:g:a:"]),
       ("maven:g:a:", ["maven:g:a:2.5"]),
       ("maven:g:a:2.5", [])]
    parent_map :=
      [("maven:g:a:", ["maven:x:r:1.0"]),
       ("maven:g:a:2.5", ["maven:g:a:"])]
    all_packages :=
      [("maven:x:r:1.0", mkPackage "maven" "x:r" "1.0"),
       ("maven:g:a:", mkPackage "maven" "g:a" ""),
       ("maven:g:a:2.5", mkPackage "maven" "g:a" "2.5")] }

/-! # Theorems -/

/-! ## Association-list map lemmas -/

theorem getA_putA_self {K A : Type} [DecidableEq K] :
    ∀ (m : List (K × A)) (k : K) (v : A), getA (putA m k v) k = some v
  | [], k, v => by simp [putA, getA]
  | (k1, v1) :: rest, k, v => by
    by_cases h : k1 = k
    · simp [putA, h, getA]
    · simp [putA, h, getA, getA_putA_self rest k v]

theorem getA_putA_ne {K A : Type} [DecidableEq K] :
    ∀ (m : List (K × A)) (k k' : K) (v : A), k' ≠ k →
      getA (putA m k v) k' = getA m k'
  | [], k, k', v, h => by simp [putA, getA, Ne.symm h]
  | (k1, v1) :: rest, k, k', v, h => by
    by_cases h1 : k1 = k
    · subst h1
      simp [putA, getA, Ne.symm h]
    · simp [putA, h1, getA, getA_putA_ne rest k k' v h]

theorem getA_modA_self {K A : Type} [DecidableEq K] :
    ∀ (m : List (K × A)) (k : K) (f : A → A),
      getA (modA m k f) k = (getA m k).map f
  | [], k, f => by simp [modA, getA]
  | (k1, v1) :: rest, k, f => by
    by_cases h : k1 = k
    · subst h
      simp [modA, getA]
    · simp [modA, h, getA, getA_modA_self rest k f]

theorem getA_modA_ne {K A : Type} [DecidableEq K] :
    ∀ (m : List (K × A)) (k k' : K) (f : A → A), k' ≠ k →
      getA (modA m k f) k' = getA m k'
  | [], _, _, _, _ => by simp [modA]
  | (k1, v1) :: rest, k, k', f, h => by
    by_cases h1 : k1 = k
    · subst h1
      simp [modA, getA, Ne.symm h]
    · simp [modA, h1, getA, getA_modA_ne rest k k' f h]

theorem getA_some_mem {K A : Type} [DecidableEq K] :
    ∀ (m : List (K × A)) (k : K) (v : A), getA m k = some v → (k, v) ∈ m
  | [], _, _, h => by simp [getA] at h
  | (k1, v1) :: rest, k, v, h => by
    by_cases h1 : k1 = k
    · subst h1
      simp [getA] at h
      subst h
      exact List.mem_cons_self _ _
    · simp only [getA, if_neg h1] at h
      exact List.mem_cons_of_mem _ (getA_some_mem rest k v h)

/-- Fold preservation: an invariant stable under each step survives the
whole fold. -/
theorem foldl_preserves {A S : Type} (f : S → A → S) (P : S → Prop)
    (h : ∀ s a, P s → P (f s a)) :
    ∀ (l : List A) (s : S), P s → P (l.foldl f s)
  | [], _, hs => hs
  | a :: l, s, hs => foldl_preserves f P h l (f s a) (h s a hs)

/-! ## State frame lemmas -/

theorem modPkg_all_nodes (st : GState) (k : String) (f : Package → Package) :
    (modPkg st k f).all_nodes = st.all_nodes := rfl

theorem modPkg_parent_map (st : GState) (k : String) (f : Package → Package) :
    (modPkg st k f).parent_map = st.parent_map := rfl

theorem modPkg_strategy (st : GState) (k : String) (f : Package → Package) :
    (modPkg st k f).resolution_strategy = st.resolution_strategy := rfl

theorem pkgOf_modPkg_ne (st : GState) (k : String) (f : Package → Package)
    (id : String) (h : id ≠ k) : pkgOf (modPkg st k f) id = pkgOf st id := by
  unfold pkgOf modPkg
  rw [getA_modA_ne _ _ _ _ h]

theorem pkgOf_modPkg_self (st : GState) (k : String) (f : Package → Package)
    (h : (getA st.all_packages k).isSome) :
    pkgOf (modPkg st k f) k = f (pkgOf st k) := by
  unfold pkgOf modPkg
  rw [getA_modA_self]
  rcases ho : getA st.all_packages k with _ | p
  · rw [ho] at h
    exact absurd h (by simp)
  · simp

theorem pkgOf_modPkg_none (st : GState) (k : String) (f : Package → Package)
    (h : getA st.all_packages k = none) :
    pkgOf (modPkg st k f) k = pkgOf st k := by
  unfold pkgOf modPkg
  rw [getA_modA_self, h]
  rfl

theorem addChild_all_packages (st : GState) (p c : String) :
    (addChild st p c).all_packages = st.all_packages := by
  unfold addChild
  rcases getA st.all_nodes p with _ | cs
  · rfl
  · by_cases h : c ∈ cs <;> simp [h]

theorem addParent_all_packages (st : GState) (c p : String) :
    (addParent st c p).all_packages = st.all_packages := by
  unfold addParent
  by_cases h : p ∈ (getA st.parent_map c).getD [] <;> simp [h]

/-! ## String comparison facts -/

theorem ltChars_irrefl : ∀ a, ltChars a a = false
  | [] => rfl
  | c :: cs => by
    simp only [ltChars, lt_irrefl, if_neg (lt_irrefl c.toNat), if_false]
    exact ltChars_irrefl cs

theorem ltChars_asymm : ∀ a b, ltChars a b = true → ltChars b a = false
  | [], [] => by simp [ltChars]
  | [], _ :: _ => by simp [ltChars]
  | _ :: _, [] => by simp [ltChars]
  | c :: cs, d :: ds => by
    simp only [ltChars]
    intro h
    by_cases h1 : c.toNat < d.toNat
    · rw [if_neg (by omega), if_pos h1]
    · by_cases h2 : d.toNat < c.toNat
      · rw [if_neg h1, if_pos h2] at h
        exact absurd h (by simp)
      · rw [if_neg h1, if_neg h2] at h
        rw [if_neg h2, if_neg h1]
        exact ltChars_asymm cs ds h

theorem ltChars_eq_of_not_lt : ∀ a b, ltChars a b = false → ltChars b a = false → a = b
  | [], [], _, _ => rfl
  | [], _ :: _, h, _ => by simp [ltChars] at h
  | _ :: _, [], _, h' => by simp [ltChars] at h'
  | c :: cs, d :: ds, h, h' => by
    simp only [ltChars] at h h'
    by_cases h1 : c.toNat < d.toNat
    · rw [if_pos h1] at h; exact absurd h (by simp)
    · by_cases h2 : d.toNat < c.toNat
      · rw [if_pos h2] at h'; exact absurd h' (by simp)
      · rw [if_neg h1, if_neg h2] at h
        rw [if_neg h2, if_neg h1] at h'
        have hn : c.toNat = d.toNat := by omega
        have hc : c = d := Char.ext (UInt32.ext hn)
        rw [hc, ltChars_eq_of_not_lt cs ds h h']

theorem pyStrLt_irrefl (a : String) : pyStrLt a a = false :=
  ltChars_irrefl a.data

theorem pyStrLt_asymm (a b : String) (h : pyStrLt a b = true) :
    pyStrLt b a = false :=
  ltChars_asymm a.data b.data h

theorem pyStrLt_eq_of_not_lt (a b : String) (h : pyStrLt a b = false)
    (h' : pyStrLt b a = false) : a = b := by
  cases a; cases b
  exact congrArg String.mk (ltChars_eq_of_not_lt _ _ h h')

/-! ## C7 — version comparison -/

theorem ordOfInt_of_neg {i : Int} (h : i < 0) : ordOfInt i = .lt := by
  simp [ordOfInt, h]

theorem ordOfInt_of_pos {i : Int} (h : 0 < i) : ordOfInt i = .gt := by
  simp [ordOfInt, h, not_lt_of_gt h]

theorem ordOfInt_of_zero {i : Int} (h : i = 0) : ordOfInt i = .eq := by
  simp [ordOfInt, h]

theorem partOrd_self (p : String) : partOrd p p = .eq := by
  unfold partOrd
  cases h : pyInt p with
  | none => simp [pyStrLt_irrefl]
  | some n => simp

theorem claimVersionOrder_self : ∀ l, claimVersionOrder l l = .eq
  | [] => rfl
  | p :: r => by
    simp only [claimVersionOrder, partOrd_self]
    exact claimVersionOrder_self r

theorem cmpListsFull_cons_of_continue {p1 p2 : List String} {a b : String}
    (h : comparePartsLoop (a :: p1) (b :: p2) = comparePartsLoop p1 p2) :
    cmpListsFull (a :: p1) (b :: p2) = cmpListsFull p1 p2 := by
  unfold cmpListsFull
  rw [h]
  cases hc : comparePartsLoop p1 p2 with
  | some r => rfl
  | none =>
    simp only [List.length_cons]
    push_cast
    ring

theorem loop_correct : ∀ l1 l2,
    ordOfInt (cmpListsFull l1 l2) = claimVersionOrder l1 l2
  | [], [] => by
    simp [cmpListsFull, comparePartsLoop, claimVersionOrder, ordOfInt]
  | [], p :: r => by
    simp only [cmpListsFull, comparePartsLoop, claimVersionOrder]
    apply ordOfInt_of_neg
    simp only [List.length_nil, List.length_cons]
    omega
  | p :: r, [] => by
    simp only [cmpListsFull, comparePartsLoop, claimVersionOrder]
    apply ordOfInt_of_pos
    simp only [List.length_nil, List.length_cons]
    omega
  | p1 :: r1, p2 :: r2 => by
    rcases ha : pyInt p1 with _ | n1 <;> rcases hb : pyInt p2 with _ | n2
    case none.none =>
      by_cases hpq : p1 = p2
      · subst hpq
        rw [cmpListsFull_cons_of_continue
          (by rw [comparePartsLoop.eq_def]; simp [ha])]
        simp only [claimVersionOrder, partOrd_self]
        exact loop_correct r1 r2
      · have hcode : cmpListsFull (p1 :: r1) (p2 :: r2)
            = (if pyStrLt p2 p1 then (1 : Int) else -1) := by
          unfold cmpListsFull comparePartsLoop
          rw [ha, hb]
          simp [hpq]
        rw [hcode]
        simp only [claimVersionOrder, partOrd, ha, hb]
        cases h21 : pyStrLt p2 p1 with
        | true =>
          rw [pyStrLt_asymm _ _ h21]
          simp [ordOfInt]
        | false =>
          cases h12 : pyStrLt p1 p2 with
          | true => simp [ordOfInt]
          | false => exact absurd (pyStrLt_eq_of_not_lt _ _ h12 h21) hpq
    case none.some =>
      by_cases hpq : p1 = p2
      · subst hpq
        rw [hb] at ha; exact absurd ha (by simp)
      · have hcode : cmpListsFull (p1 :: r1) (p2 :: r2)
            = (if pyStrLt p2 p1 then (1 : Int) else -1) := by
          unfold cmpListsFull comparePartsLoop
          rw [ha, hb]
          simp [hpq]
        rw [hcode]
        simp only [claimVersionOrder, partOrd, ha, hb]
        cases h21 : pyStrLt p2 p1 with
        | true =>
          rw [pyStrLt_asymm _ _ h21]
          simp [ordOfInt]
        | false =>
          cases h12 : pyStrLt p1 p2 with
          | true => simp [ordOfInt]
          | false => exact absurd (pyStrLt_eq_of_not_lt _ _ h12 h21) hpq
    case some.none =>
      by_cases hpq : p1 = p2
      · subst hpq
        rw [ha] at hb; exact absurd hb (by simp)
      · have hcode : cmpListsFull (p1 :: r1) (p2 :: r2)
            = (if pyStrLt p2 p1 then (1 : Int) else -1) := by
          unfold cmpListsFull comparePartsLoop
          rw [ha, hb]
          simp [hpq]
        rw [hcode]
        simp only [claimVersionOrder, partOrd, ha, hb]
        cases h21 : pyStrLt p2 p1 with
        | true =>
          rw [pyStrLt_asymm _ _ h21]
          simp [ordOfInt]
        | false =>
          cases h12 : pyStrLt p1 p2 with
          | true => simp [ordOfInt]
          | false => exact absurd (pyStrLt_eq_of_not_lt _ _ h12 h21) hpq
    case some.some =>
      by_cases hnm : n1 = n2
      · subst hnm
        rw [cmpListsFull_cons_of_continue
          (by rw [comparePartsLoop.eq_def]; simp [ha, hb])]
        have hp : partOrd p1 p2 = .eq := by
          unfold partOrd
          rw [ha, hb]
          simp
        simp only [claimVersionOrder, hp]
        exact loop_correct r1 r2
      · have hcode : cmpListsFull (p1 :: r1) (p2 :: r2) = n1 - n2 := by
          unfold cmpListsFull comparePartsLoop
          rw [ha, hb]
          simp [hnm]
        rw [hcode]
        simp only [claimVersionOrder, partOrd, ha, hb]
        rcases lt_trichotomy n1 n2 with hlt | heq | hgt
        · rw [if_pos hlt, ordOfInt_of_neg (by omega)]
        · exact absurd heq hnm
        · rw [if_neg (by omega), if_pos hgt, ordOfInt_of_pos (by omega)]

/-- C7: `_compare_versions` splits both version strings on `.` or `-`,
compares part-wise — numerically when both parts parse as integers,
lexicographically on the raw parts otherwise — returning at the first
unequal part; when the shared prefix agrees the longer version is higher,
and equal strings compare equal. -/
theorem compare_versions_matches_claim (v1 v2 : String) :
    ordOfInt (compare_versions v1 v2) = claimCompare v1 v2 := by
  unfold compare_versions claimCompare
  by_cases h : v1 = v2
  · subst h
    rw [if_pos rfl, ordOfInt_of_zero rfl, claimVersionOrder_self]
  · rw [if_neg h]
    exact loop_correct _ _

/-! ## C8 — MetadataClient fetch contract -/

/-- C8: `get_dependency_graph` returns the parsed body on HTTP 200,
`none` on any non-200 status, and `none` on a network failure; being a
total function of the oracle outcome, it never raises. -/
theorem get_dependency_graph_contract (http : String → HttpOutcome)
    (package : Package) :
    (∀ g, http (depsDevUrl package) = .response 200 (some g) →
       DepsDevClient.get_dependency_graph http package = some g)
  ∧ (∀ s b, s ≠ 200 → http (depsDevUrl package) = .response s b →
       DepsDevClient.get_dependency_graph http package = none)
  ∧ (http (depsDevUrl package) = .failure →
       DepsDevClient.get_dependency_graph http package = none) := by
  refine ⟨?_, ?_, ?_⟩
  · intro g h
    simp [DepsDevClient.get_dependency_graph, h]
  · intro s b hs h
    simp [DepsDevClient.get_dependency_graph, h, hs]
  · intro h
    simp [DepsDevClient.get_dependency_graph, h]

theorem get_dependency_graph_contract_witness :
    DepsDevClient.get_dependency_graph
        (fun _ => .response 200 (some ⟨[], []⟩)) (mkPackage "maven" "g:a" "1.0")
      = some ⟨[], []⟩
  ∧ DepsDevClient.get_dependency_graph
        (fun _ => .response 404 none) (mkPackage "maven" "g:a" "1.0") = none
  ∧ DepsDevClient.get_dependency_graph
        (fun _ => .failure) (mkPackage "maven" "g:a" "1.0") = none :=
  ⟨(get_dependency_graph_contract _ _).1 ⟨[], []⟩ rfl,
   (get_dependency_graph_contract _ _).2.1 404 none (by decide) rfl,
   (get_dependency_graph_contract _ _).2.2 rfl⟩

/-! ## C9 — vendor-version translator -/

/-- C9: on a `HERODEVS_PATTERN` match the deps.dev query version is the
first semver group, the parse is flagged HeroDevs and the second group is
remembered as the patched version (used as the SBOM version); every other
version string is returned unchanged. -/
theorem get_depsdev_version_contract (v upstream artifact patched : String) :
    (herodevsMatch v = some (upstream, artifact, patched) →
       VersionParser.get_depsdev_version v = upstream
       ∧ (VersionParser.parse v).is_herodevs = true
       ∧ getA (VersionParser.parse v).metadata "herodevs:patched-version"
           = some patched
       ∧ (VersionParser.parse v).sbom_version = patched)
  ∧ (herodevsMatch v = none →
       VersionParser.get_depsdev_version v = v
       ∧ (VersionParser.parse v).is_herodevs = false) := by
  constructor
  · intro h
    refine ⟨?_, ?_, ?_, ?_⟩ <;>
      simp [VersionParser.get_depsdev_version, VersionParser.parse, h, getA]
  · intro h
    exact ⟨by simp [VersionParser.get_depsdev_version, VersionParser.parse, h],
           by simp [VersionParser.parse, h]⟩

theorem get_depsdev_version_contract_witness :
    VersionParser.get_depsdev_version "5.3.39-spring-framework-5.3.47"
      = "5.3.39"
  ∧ VersionParser.get_depsdev_version "2.17.1" = "2.17.1" :=
  ⟨((get_depsdev_version_contract "5.3.39-spring-framework-5.3.47" "5.3.39"
      "spring-framework" "5.3.47").1 (by decide)).1,
   ((get_depsdev_version_contract "2.17.1" "" "" "").2 (by decide)).1⟩

/-! ## C10 — scope-to-CycloneDX mapping -/

/-- C10 counterexample: `"TEST"` is outside the documented Maven scope
set as a string, yet is mapped to `excluded` (the set test is on the
lower-cased scope), falsifying "unknown scopes map to required" as
stated. -/
theorem maven_scope_to_cyclonedx_uppercase_not_required :
    "TEST" ∉ ["compile", "runtime", "required", "test", "provided",
              "system", "excluded", "optional"]
  ∧ maven_scope_to_cyclonedx "TEST" = ComponentScope.excluded := by
  constructor
  · decide
  · decide

/-- C10 (amended): any scope string that is empty or whose *lower-cased*
form is outside the documented Maven set maps to `required`. -/
theorem maven_scope_to_cyclonedx_unknown_defaults_required (s : String)
    (h : s = "" ∨ pyLower s ∉ ["compile", "runtime", "required", "test",
          "provided", "system", "excluded", "optional"]) :
    maven_scope_to_cyclonedx s = ComponentScope.required := by
  by_cases hs : s = ""
  · subst hs
    decide
  · rcases h with h | h
    · exact absurd h hs
    · have hne : ∀ x ∈ (["compile", "runtime", "required", "test",
          "provided", "system", "excluded", "optional"] : List String),
          pyLower s ≠ x := fun x hx he => h (he ▸ hx)
      have hOpt : ¬ pyLower s = "optional" := hne "optional" (by decide)
      have hExc : ¬ (pyLower s = "test" ∨ pyLower s = "provided"
          ∨ pyLower s = "system" ∨ pyLower s = "excluded") := by
        rintro (he | he | he | he)
        exacts [hne "test" (by decide) he, hne "provided" (by decide) he,
                hne "system" (by decide) he, hne "excluded" (by decide) he]
      simp only [maven_scope_to_cyclonedx, if_neg hs]
      rw [if_neg hOpt, if_neg hExc]
      by_cases hReq : pyLower s = "compile" ∨ pyLower s = "runtime"
          ∨ pyLower s = "required"
      · rcases hReq with he | he | he
        exacts [absurd he (hne "compile" (by decide)),
                absurd he (hne "runtime" (by decide)),
                absurd he (hne "required" (by decide))]
      · rw [if_neg hReq]

theorem maven_scope_to_cyclonedx_unknown_defaults_required_witness :
    maven_scope_to_cyclonedx "import" = ComponentScope.required :=
  maven_scope_to_cyclonedx_unknown_defaults_required "import"
    (Or.inr (by decide))

/-! ## C1 — SBOM determinism -/

/-- C1 counterexample: two assembly runs over the same (empty) graph
state and identical metadata, differing only in the per-run
`uuid4()` serial number, produce different bytes. -/
theorem format_as_sbom_two_runs_differ :
    format_as_sbom emptyState [] [] none
        "00000000-0000-0000-0000-000000000000" "2025-01-01T00:00:00"
      ≠ format_as_sbom emptyState [] [] none
        "11111111-1111-1111-1111-111111111111" "2025-01-01T00:00:00" := by
  decide

/-- C1 (amended): the emitted SBOM is a function of the graph state, the
package collection, the command line, the per-run serial-number UUID and
the per-run clock reading alone; two runs with identical graph state
yield documents that are byte-identical except for `serialNumber` and
`metadata.timestamp`. -/
theorem format_as_sbom_deterministic_modulo_serial_and_timestamp
    (st : GState) (packages : List Package) (trees : List String)
    (command_line : Option String) (u1 t1 u2 t2 : String) :
    format_as_sbom st packages trees command_line u1 t1
      = renderDoc { format_as_sbomDoc st packages trees command_line u2 t2 with
                    serialNumber := "urn:uuid:" ++ u1
                    timestamp := fixTimestamp t1 } := rfl

/-! ## C2 — managed version overrides -/

/-- C2: the override pass diverges from its specification. With
dependency management keyed `"g:a"` (the POM parser's key format), the
lookup `dependency_management.get("maven:g:a")` never matches, so the
matching node is left untouched. With a `"maven:g:a"` key the node is
excluded, but `winning_version` is set to the literal `"unknown"` instead
of the managed version, because the winner identity
`"maven:g:a:2.0"` has four `:`-parts, not three. Both behaviours hold for
every metadata oracle, since no fetch is attempted in either state. -/
theorem apply_managed_version_overrides_divergence
    (http : String → HttpOutcome) :
    apply_managed_version_overrides http overrideStateA = overrideStateA
  ∧ (pkgOf (apply_managed_version_overrides http overrideStateA)
        "maven:g:a:1.0").scope = "compile"
  ∧ (pkgOf (apply_managed_version_overrides http overrideStateB)
        "maven:g:a:1.0").scope = "excluded"
  ∧ (pkgOf (apply_managed_version_overrides http overrideStateB)
        "maven:g:a:1.0").scope_reason = some "override-loser"
  ∧ (pkgOf (apply_managed_version_overrides http overrideStateB)
        "maven:g:a:1.0").winning_version = some "unknown"
  ∧ (pkgOf (apply_managed_version_overrides http overrideStateB)
        "maven:g:a:2.0").is_override_winner = true
  ∧ (pkgOf (apply_managed_version_overrides http overrideStateB)
        "maven:g:a:2.0").defeated_versions = ["1.0"] :=
  ⟨rfl, rfl, rfl, rfl, rfl, rfl, rfl⟩

/-! ## C3 — managed versions under highest-wins -/

/-- C3 counterexample: base key `maven:a:b` has managed version `1.0`,
but the graph contains `2.0`, and the highest-wins winner is `2.0` — the
third pass overrides the dependency-management seed, so
dependency management is not the highest-priority source. -/
theorem determine_highest_managed_overridden_by_higher :
    getA managedLowState.dependency_management "a:b" = some "1.0"
  ∧ getA managedLowState.name_to_system "a:b" = some "maven"
  ∧ getA (determine_highest_winning_versions managedLowState []) "maven:a:b"
      ≠ some "1.0"
  ∧ getA (determine_highest_winning_versions managedLowState []) "maven:a:b"
      = some "2.0" := by
  refine ⟨by decide, by decide, by decide, by decide⟩

/-- Priority 2 never overwrites an existing winner entry. -/
theorem inputSeed_preserves (st : GState) (inputs : List Package)
    (w : List (String × String)) (bk v : String)
    (h : getA w bk = some v) : getA (inputSeed st inputs w) bk = some v := by
  unfold inputSeed
  refine foldl_preserves _ (fun w => getA w bk = some v) ?_ inputs w h
  intro w pkg hw
  by_cases h1 : (!hasA st.raw_graphs pkg.full_name) = true
  · rw [if_pos h1]
    exact hw
  · rw [if_neg h1]
    show getA (if hasA w (pkg.system ++ ":" ++ pkg.name) = true then w
               else putA w (pkg.system ++ ":" ++ pkg.name) pkg.version) bk
           = some v
    by_cases h2 : hasA w (pkg.system ++ ":" ++ pkg.name) = true
    · rw [if_pos h2]
      exact hw
    · rw [if_neg h2]
      by_cases hbk : pkg.system ++ ":" ++ pkg.name = bk
      · exact absurd (by rw [hasA, hbk, hw]; rfl) h2
      · rw [getA_putA_ne _ _ _ _ (fun he => hbk he.symm)]
        exact hw

/-- Priority 3 keeps an entry that no node version strictly beats. -/
theorem highestPass_keeps (st : GState) (bk v : String)
    (hmax : ∀ entry ∈ st.all_nodes, base_key (pkgOf st entry.1) = bk →
              ¬ compare_versions (pkgOf st entry.1).version v > 0)
    (w : List (String × String)) (h : getA w bk = some v) :
    getA (highestPass st w) bk = some v := by
  unfold highestPass
  have main : ∀ (l : List (String × List String)),
      (∀ entry ∈ l, base_key (pkgOf st entry.1) = bk →
        ¬ compare_versions (pkgOf st entry.1).version v > 0) →
      ∀ (w : List (String × String)), getA w bk = some v →
      getA (l.foldl (fun w entry =>
        let pkg := pkgOf st entry.1
        let bk := base_key pkg
        match getA w bk with
        | some cur =>
          if compare_versions pkg.version cur > 0 then putA w bk pkg.version
          else w
        | none => putA w bk pkg.version) w) bk = some v := by
    intro l
    induction l with
    | nil => intro _ w hw; exact hw
    | cons entry rest ih =>
      intro hl w hw
      simp only [List.foldl_cons]
      by_cases hbk : base_key (pkgOf st entry.1) = bk
      · have hcur : getA w (base_key (pkgOf st entry.1)) = some v := by
          rw [hbk]; exact hw
        have hngt := hl entry (List.mem_cons_self _ _) hbk
        refine ih (fun e he hb => hl e (List.mem_cons_of_mem _ he) hb) _ ?_
        simp only [hcur]
        rw [if_neg hngt]
        exact hw
      · refine ih (fun e he hb => hl e (List.mem_cons_of_mem _ he) hb) _ ?_
        rcases hcur : getA w (base_key (pkgOf st entry.1)) with _ | cur
        · simp only [hcur]
          rw [getA_putA_ne _ _ _ _ (fun he => hbk he.symm)]
          exact hw
        · simp only [hcur]
          split
          · rw [getA_putA_ne _ _ _ _ (fun he => hbk he.symm)]
            exact hw
          · exact hw
  exact main st.all_nodes hmax w h

/-- C3 (amended): dependency management is only the highest-priority
*seed*: the first two passes never overwrite it, but the third pass can
replace it with a node version (see the counterexample); when no node of
that base key compares strictly higher than the managed version, the
managed version is guaranteed to survive as the winner. -/
theorem determine_highest_respects_managed_when_no_higher
    (st : GState) (inputs : List Package) (bk v : String)
    (h1 : getA (managedSeed st) bk = some v)
    (h2 : ∀ entry ∈ st.all_nodes, base_key (pkgOf st entry.1) = bk →
            ¬ compare_versions (pkgOf st entry.1).version v > 0) :
    getA (determine_highest_winning_versions st inputs) bk = some v :=
  highestPass_keeps st bk v h2 _ (inputSeed_preserves st inputs _ bk v h1)

theorem determine_highest_respects_managed_witness :
    getA (determine_highest_winning_versions managedHighState []) "maven:a:b"
      = some "2.0" :=
  determine_highest_respects_managed_when_no_higher managedHighState []
    "maven:a:b" "2.0" (by decide)
    (by
      intro e he hb
      fin_cases he <;> decide)

/-! ## C6 — scope propagation -/

theorem propStep_all_nodes (rr : List String) (st : GState) (n : String) :
    (propStep rr st n).all_nodes = st.all_nodes := by
  unfold propStep
  repeat' split
  all_goals rfl

theorem propStep_all_packages_ne (rr : List String) (st : GState)
    (n id : String) (h : id ≠ n) :
    getA (propStep rr st n).all_packages id = getA st.all_packages id := by
  unfold propStep
  repeat' split
  all_goals first
    | rfl
    | exact getA_modA_ne _ _ _ _ h

theorem propStep_pkg_ne (rr : List String) (st : GState) (n id : String)
    (h : id ≠ n) : pkgOf (propStep rr st n) id = pkgOf st id := by
  unfold pkgOf
  rw [propStep_all_packages_ne rr st n id h]

theorem propagateMark_not_in (rr : List String) :
    ∀ (L : List String) (st : GState) (id : String), id ∉ L →
      pkgOf (propagateMark rr L st) id = pkgOf st id
  | [], _, _, _ => rfl
  | n :: L, st, id, h => by
    have hne : id ≠ n := fun he => h (he ▸ List.mem_cons_self n L)
    rw [show propagateMark rr (n :: L) st
      = propagateMark rr L (propStep rr st n) from rfl]
    rw [propagateMark_not_in rr L (propStep rr st n) id
      (fun hm => h (List.mem_cons_of_mem _ hm))]
    exact propStep_pkg_ne rr st n id hne

theorem propagateMark_in_rr (rr : List String) :
    ∀ (L : List String) (st : GState) (id : String), id ∈ rr →
      pkgOf (propagateMark rr L st) id = pkgOf st id
  | [], _, _, _ => rfl
  | n :: L, st, id, h => by
    rw [show propagateMark rr (n :: L) st
      = propagateMark rr L (propStep rr st n) from rfl]
    rw [propagateMark_in_rr rr L (propStep rr st n) id h]
    by_cases hne : id = n
    · subst hne
      unfold propStep
      rw [if_pos h]
    · exact propStep_pkg_ne rr st n id hne

theorem propagateMark_excluded (rr : List String) :
    ∀ (L : List String) (st : GState) (id : String),
      (pkgOf st id).scope = "excluded" →
      pkgOf (propagateMark rr L st) id = pkgOf st id
  | [], _, _, _ => rfl
  | n :: L, st, id, h => by
    rw [show propagateMark rr (n :: L) st
      = propagateMark rr L (propStep rr st n) from rfl]
    have hstep : pkgOf (propStep rr st n) id = pkgOf st id := by
      by_cases hne : id = n
      · subst hne
        unfold propStep
        split
        · rfl
        · split
          · rfl
          · rw [if_neg (fun hc => hc h)]
      · exact propStep_pkg_ne rr st n id hne
    rw [propagateMark_excluded rr L (propStep rr st n) id
      (by rw [hstep]; exact h), hstep]

theorem propagateMark_marks (rr : List String) :
    ∀ (L : List String) (st : GState) (id : String), id ∈ L → id ∉ rr →
      (pkgOf st id).scope ≠ "excluded" →
      (getA st.all_nodes id).isSome →
      (getA st.all_packages id).isSome →
      pkgOf (propagateMark rr L st) id
        = { pkgOf st id with
              scope := "excluded", scope_reason := some "test-dependency" }
  | [], _, _, hm, _, _, _, _ => absurd hm (List.not_mem_nil _)
  | n :: L, st, id, hm, hrr, hsc, hn, hp => by
    rw [show propagateMark rr (n :: L) st
      = propagateMark rr L (propStep rr st n) from rfl]
    by_cases hne : id = n
    · subst hne
      have hstep : pkgOf (propStep rr st id) id
          = { pkgOf st id with
              scope := "excluded", scope_reason := some "test-dependency" } := by
        unfold propStep
        rw [if_neg hrr]
        rcases hgo : getA st.all_nodes id with _ | cs
        · rw [hgo] at hn
          exact absurd hn (by simp)
        · simp only [hgo]
          rw [if_pos hsc]
          exact pkgOf_modPkg_self st id _ hp
      have hexc : (pkgOf (propStep rr st id) id).scope = "excluded" := by
        rw [hstep]
      rw [propagateMark_excluded rr L (propStep rr st id) id hexc]
      exact hstep
    · have hm' : id ∈ L := by
        rcases List.mem_cons.mp hm with he | hm'
        · exact absurd he hne
        · exact hm'
      have hstep := propStep_pkg_ne rr st n id hne
      rw [propagateMark_marks rr L (propStep rr st n) id hm' hrr
        (by rw [hstep]; exact hsc)
        (by rw [propStep_all_nodes]; exact hn)
        (by rw [propStep_all_packages_ne rr st n id hne]; exact hp)]
      rw [hstep]

/-- C6: `_propagate_excluded_scopes` marks `excluded` / `test-dependency`
exactly the graph nodes that are test-reachable but not
required-reachable and were not already excluded; in particular every
package reachable from some required-scope root is left unchanged by the
pass. -/
theorem propagate_excluded_scopes_marks_exactly_test_only
    (st : GState) (id : String)
    (hn : (getA st.all_nodes id).isSome)
    (hp : (getA st.all_packages id).isSome) :
    (id ∈ (reachPair st).2 →
       pkgOf (propagate_excluded_scopes st) id = pkgOf st id)
  ∧ pkgOf (propagate_excluded_scopes st) id =
      (if id ∈ (reachPair st).1 ∧ id ∉ (reachPair st).2
          ∧ (pkgOf st id).scope ≠ "excluded"
       then { pkgOf st id with
                scope := "excluded", scope_reason := some "test-dependency" }
       else pkgOf st id) := by
  unfold propagate_excluded_scopes
  by_cases hroots : st.root_nodes.isEmpty
  · rw [if_pos hroots]
    have hre : reachPair st = ([], []) := by
      unfold reachPair
      rcases hr : st.root_nodes with _ | ⟨r, rs⟩
      · rfl
      · rw [hr] at hroots
        exact absurd hroots (by simp)
    rw [hre]
    refine ⟨fun _ => rfl, ?_⟩
    rw [if_neg (by simp)]
  · rw [if_neg hroots]
    constructor
    · intro h
      exact propagateMark_in_rr (reachPair st).2 (reachPair st).1 st id h
    · by_cases hc : id ∈ (reachPair st).1 ∧ id ∉ (reachPair st).2
          ∧ (pkgOf st id).scope ≠ "excluded"
      · rw [if_pos hc]
        exact propagateMark_marks (reachPair st).2 (reachPair st).1 st id
          hc.1 hc.2.1 hc.2.2 hn hp
      · rw [if_neg hc]
        by_cases h1 : id ∈ (reachPair st).1
        · by_cases h2 : id ∈ (reachPair st).2
          · exact propagateMark_in_rr (reachPair st).2 (reachPair st).1 st id h2
          · have h3 : ¬ (pkgOf st id).scope ≠ "excluded" :=
              fun h3 => hc ⟨h1, h2, h3⟩
            exact propagateMark_excluded (reachPair st).2 (reachPair st).1 st
              id (not_not.mp h3)
        · exact propagateMark_not_in (reachPair st).2 (reachPair st).1 st id h1

/-! ## C5 — loser-subtree exclusion -/

theorem crsMark_scope (p : Package) : (crsMark p).scope = "excluded" := rfl

theorem crsMark_idem (p : Package) : crsMark (crsMark p) = crsMark p := rfl

theorem pkgOf_modPkg_cases (st : GState) (k : String)
    (f : Package → Package) (id : String) :
    pkgOf (modPkg st k f) id = pkgOf st id
    ∨ pkgOf (modPkg st k f) id = f (pkgOf st id) := by
  by_cases h : id = k
  · subst h
    rcases ho : getA st.all_packages id with _ | p
    · left
      exact pkgOf_modPkg_none st id f ho
    · right
      exact pkgOf_modPkg_self st id f (by rw [ho]; rfl)
  · left
    exact pkgOf_modPkg_ne st k f id h

/-- Unrolling one sibling of the `markSubtreeKids` fold. -/
theorem markSubtreeKids_cons (fuel : Nat) (st : GState) (c : String)
    (rest visited ep : List String) :
    markSubtreeKids (fuel + 1) st (c :: rest) visited ep
      = markSubtreeKids (fuel + 1)
          (markSubtreeStep (markSubtreeKids fuel) ep (st, visited) c).1 rest
          (markSubtreeStep (markSubtreeKids fuel) ep (st, visited) c).2 ep :=
  rfl

/-- Case analysis of one `markSubtreeStep`: either the state is
unchanged, or the child was non-excluded with all parents in
`excluded_parents`, was marked, and its subtree walked. -/
theorem markSubtreeStep_cases
    (d : GState → List String → List String → List String →
      GState × List String)
    (ep : List String) (st : GState) (visited : List String) (c : String) :
    (markSubtreeStep d ep (st, visited) c).1 = st
    ∨ ((pkgOf st c).scope ≠ "excluded"
        ∧ (∀ p ∈ (getA st.parent_map c).getD [], p ∈ ep)
        ∧ markSubtreeStep d ep (st, visited) c
            = d (modPkg st c crsMark) (childrenOf (modPkg st c crsMark) c)
                (c :: visited) (c :: ep)) := by
  simp only [markSubtreeStep]
  by_cases h1 : c ∈ visited
  · rw [if_pos h1]
    left
    rfl
  · rw [if_neg h1]
    by_cases h2 : (pkgOf st c).scope = "excluded"
    · rw [if_pos h2]
      left
      rfl
    · rw [if_neg h2]
      by_cases h3 : ((getA st.parent_map c).getD []).any
          (fun p => !(ep.contains p)) = true
      · rw [if_pos h3]
        left
        rfl
      · rw [if_neg h3]
        right
        refine ⟨h2, ?_, rfl⟩
        intro p hp
        by_contra hpe
        apply h3
        rw [List.any_eq_true]
        refine ⟨p, hp, ?_⟩
        simp [hpe]

/-- The state after `markSubtreeKids`: every component other than the
packages is untouched, and each package entry is either untouched or
`crsMark`-ed. -/
theorem markSubtreeKids_effect (fuel : Nat) :
    ∀ (cs : List String) (st : GState) (visited ep : List String),
    ((markSubtreeKids fuel st cs visited ep).1.all_nodes = st.all_nodes
     ∧ (markSubtreeKids fuel st cs visited ep).1.parent_map = st.parent_map
     ∧ (markSubtreeKids fuel st cs visited ep).1.resolution_strategy
         = st.resolution_strategy)
  ∧ ∀ x, getA (markSubtreeKids fuel st cs visited ep).1.all_packages x
           = getA st.all_packages x
       ∨ getA (markSubtreeKids fuel st cs visited ep).1.all_packages x
           = (getA st.all_packages x).map crsMark := by
  have hmapmap : ∀ (o : Option Package),
      (o.map crsMark).map crsMark = o.map crsMark := by
    intro o
    cases o <;> simp [crsMark_idem]
  induction fuel with
  | zero =>
    intro cs st visited ep
    exact ⟨⟨rfl, rfl, rfl⟩, fun x => Or.inl rfl⟩
  | succ fuel ih =>
    intro cs
    induction cs with
    | nil =>
      intro st visited ep
      exact ⟨⟨rfl, rfl, rfl⟩, fun x => Or.inl rfl⟩
    | cons c rest ihc =>
      intro st visited ep
      rw [markSubtreeKids_cons]
      rcases markSubtreeStep_cases (markSubtreeKids fuel) ep st visited c with
        hskip | ⟨_, _, hstep⟩
      · rw [hskip]
        exact ihc st _ ep
      · rw [hstep]
        have hstl : ∀ x, getA (modPkg st c crsMark).all_packages x
              = getA st.all_packages x
            ∨ getA (modPkg st c crsMark).all_packages x
              = (getA st.all_packages x).map crsMark := by
          intro x
          by_cases hxc : x = c
          · subst hxc
            right
            exact getA_modA_self _ _ _
          · left
            exact getA_modA_ne _ _ _ _ hxc
        obtain ⟨hfr1, hpk1⟩ := ih (childrenOf (modPkg st c crsMark) c)
          (modPkg st c crsMark) (c :: visited) (c :: ep)
        obtain ⟨hfr2, hpk2⟩ := ihc
          (markSubtreeKids fuel (modPkg st c crsMark)
            (childrenOf (modPkg st c crsMark) c) (c :: visited) (c :: ep)).1
          (markSubtreeKids fuel (modPkg st c crsMark)
            (childrenOf (modPkg st c crsMark) c) (c :: visited) (c :: ep)).2
          ep
        refine ⟨⟨?_, ?_, ?_⟩, ?_⟩
        · rw [hfr2.1, hfr1.1]
          rfl
        · rw [hfr2.2.1, hfr1.2.1]
          rfl
        · rw [hfr2.2.2, hfr1.2.2]
          rfl
        · intro x
          rcases hpk2 x with h2 | h2 <;> rcases hpk1 x with h1 | h1 <;>
            rcases hstl x with h0 | h0 <;>
            first
              | (left; simp only [h2, h1, h0, hmapmap]; done)
              | (right; simp only [h2, h1, h0, hmapmap]; done)

theorem markSubtreeKids_pkg_cases (fuel : Nat) (cs : List String)
    (st : GState) (visited ep : List String) (x : String) :
    pkgOf (markSubtreeKids fuel st cs visited ep).1 x = pkgOf st x
    ∨ pkgOf (markSubtreeKids fuel st cs visited ep).1 x
        = crsMark (pkgOf st x) := by
  rcases (markSubtreeKids_effect fuel cs st visited ep).2 x with h | h
  · left
    unfold pkgOf
    rw [h]
  · rcases ho : getA st.all_packages x with _ | p
    · left
      unfold pkgOf
      rw [h, ho]
      rfl
    · right
      unfold pkgOf
      rw [h, ho]
      rfl

theorem markSubtreeKids_mono (fuel : Nat) (cs : List String) (st : GState)
    (visited ep : List String) (x : String)
    (h : (pkgOf st x).scope = "excluded") :
    (pkgOf (markSubtreeKids fuel st cs visited ep).1 x).scope
      = "excluded" := by
  rcases markSubtreeKids_pkg_cases fuel cs st visited ep x with hc | hc
  · rw [hc]
    exact h
  · rw [hc]
    rfl

theorem getA_modA_isSome {K A : Type} [DecidableEq K]
    (m : List (K × A)) (k : K) (f : A → A) (x : K) :
    (getA (modA m k f) x).isSome = (getA m x).isSome := by
  by_cases h : x = k
  · subst h
    rw [getA_modA_self]
    cases getA m x <;> rfl
  · rw [getA_modA_ne _ _ _ _ h]

theorem markSubtreeKids_isSome (fuel : Nat) (cs : List String)
    (st : GState) (visited ep : List String) (x : String) :
    (getA (markSubtreeKids fuel st cs visited ep).1.all_packages x).isSome
      = (getA st.all_packages x).isSome := by
  rcases (markSubtreeKids_effect fuel cs st visited ep).2 x with h | h
  · rw [h]
  · rw [h]
    cases getA st.all_packages x <;> rfl

theorem childClosed_of_nodes_eq {st st' : GState}
    (h : st'.all_nodes = st.all_nodes) (hc : childClosed st) :
    childClosed st' := by
  unfold childClosed at *
  rw [h]
  exact hc

theorem nodesHavePackages_transfer {st st' : GState}
    (h : st'.all_nodes = st.all_nodes)
    (hs : ∀ x, (getA st'.all_packages x).isSome
            = (getA st.all_packages x).isSome)
    (hp : nodesHavePackages st) : nodesHavePackages st' := by
  unfold nodesHavePackages at *
  rw [h]
  intro entry hmem
  rw [hs]
  exact hp entry hmem

/-- Core of the C5 amendment: whenever the subtree walk has marked a
package excluded, all of that package's parents are excluded in the
walk's final state — provided the graph is well-formed and everything in
`excluded_parents` is already excluded. -/
theorem markSubtreeKids_only_if (fuel : Nat) :
    ∀ (cs : List String) (st : GState) (visited ep : List String),
      childClosed st → nodesHavePackages st →
      (∀ c ∈ cs, (getA st.all_nodes c).isSome) →
      (∀ p ∈ ep, (pkgOf st p).scope = "excluded") →
      ∀ id,
        (pkgOf (markSubtreeKids fuel st cs visited ep).1 id).scope
          = "excluded" →
        (pkgOf st id).scope = "excluded"
        ∨ ∀ p ∈ (getA st.parent_map id).getD [],
            (pkgOf (markSubtreeKids fuel st cs visited ep).1 p).scope
              = "excluded" := by
  induction fuel with
  | zero =>
    intro cs st visited ep _ _ _ _ id hid
    left
    exact hid
  | succ fuel ih =>
    intro cs
    induction cs with
    | nil =>
      intro st visited ep _ _ _ _ id hid
      left
      exact hid
    | cons c rest ihc =>
      intro st visited ep hcl hwf hcs hep
      rw [markSubtreeKids_cons]
      rcases markSubtreeStep_cases (markSubtreeKids fuel) ep st visited c with
        hskip | ⟨hc_scope, hc_par, hstep⟩
      · rw [hskip]
        exact ihc st _ ep hcl hwf
          (fun c' hc' => hcs c' (List.mem_cons_of_mem _ hc')) hep
      · rw [hstep]
        -- abbreviations
        have hc_node : (getA st.all_nodes c).isSome :=
          hcs c (List.mem_cons_self _ _)
        obtain ⟨ccs, hccs⟩ := Option.isSome_iff_exists.mp hc_node
        have hc_mem : (c, ccs) ∈ st.all_nodes := getA_some_mem _ _ _ hccs
        have hc_pkg : (getA st.all_packages c).isSome := hwf (c, ccs) hc_mem
        have hst1_c : pkgOf (modPkg st c crsMark) c = crsMark (pkgOf st c) :=
          pkgOf_modPkg_self st c crsMark hc_pkg
        have hcl1 : childClosed (modPkg st c crsMark) :=
          childClosed_of_nodes_eq rfl hcl
        have hwf1 : nodesHavePackages (modPkg st c crsMark) :=
          @nodesHavePackages_transfer st (modPkg st c crsMark) rfl
            (fun x => getA_modA_isSome st.all_packages c crsMark x) hwf
        have hcs1 : ∀ c' ∈ childrenOf (modPkg st c crsMark) c,
            (getA (modPkg st c crsMark).all_nodes c').isSome := by
          intro c' hc'
          have : childrenOf (modPkg st c crsMark) c = ccs := by
            unfold childrenOf
            rw [modPkg_all_nodes, hccs]
            rfl
          rw [this] at hc'
          exact hcl (c, ccs) hc_mem c' hc'
        have hep1 : ∀ p ∈ c :: ep,
            (pkgOf (modPkg st c crsMark) p).scope = "excluded" := by
          intro p hp
          rcases List.mem_cons.mp hp with he | hp'
          · subst he
            rw [hst1_c]
            rfl
          · rcases pkgOf_modPkg_cases st c crsMark p with hcase | hcase
            · rw [hcase]
              exact hep p hp'
            · rw [hcase]
              rfl
        -- state after the descend
        have hdn :=
          markSubtreeKids_effect fuel (childrenOf (modPkg st c crsMark) c)
            (modPkg st c crsMark) (c :: visited) (c :: ep)
        have hcl2 : childClosed
            (markSubtreeKids fuel (modPkg st c crsMark)
              (childrenOf (modPkg st c crsMark) c) (c :: visited)
              (c :: ep)).1 :=
          childClosed_of_nodes_eq hdn.1.1 hcl1
        have hwf2 : nodesHavePackages
            (markSubtreeKids fuel (modPkg st c crsMark)
              (childrenOf (modPkg st c crsMark) c) (c :: visited)
              (c :: ep)).1 :=
          nodesHavePackages_transfer hdn.1.1
            (fun x => markSubtreeKids_isSome fuel _ _ _ _ x) hwf1
        have hcs2 : ∀ c' ∈ rest,
            (getA (markSubtreeKids fuel (modPkg st c crsMark)
              (childrenOf (modPkg st c crsMark) c) (c :: visited)
              (c :: ep)).1.all_nodes c').isSome := by
          intro c' hc'
          rw [hdn.1.1, modPkg_all_nodes]
          exact hcs c' (List.mem_cons_of_mem _ hc')
        have hep2 : ∀ p ∈ ep,
            (pkgOf (markSubtreeKids fuel (modPkg st c crsMark)
              (childrenOf (modPkg st c crsMark) c) (c :: visited)
              (c :: ep)).1 p).scope = "excluded" := by
          intro p hp
          exact markSubtreeKids_mono fuel _ _ _ _ p
            (hep1 p (List.mem_cons_of_mem _ hp))
        intro id hid
        rcases ihc _ _ ep hcl2 hwf2 hcs2 hep2 id hid with hid2 | hpar
        · -- excluded already after the descend
          rcases ih _ _ _ _ hcl1 hwf1 hcs1 hep1 id hid2 with hid3 | hpar3
          · by_cases hidc : id = c
            · subst hidc
              right
              intro p hp
              have hp_ep : p ∈ ep := hc_par p hp
              have h1 : (pkgOf (modPkg st id crsMark) p).scope = "excluded" :=
                hep1 p (List.mem_cons_of_mem _ hp_ep)
              have h2 := markSubtreeKids_mono fuel
                (childrenOf (modPkg st id crsMark) id) (modPkg st id crsMark)
                (id :: visited) (id :: ep) p h1
              exact markSubtreeKids_mono (fuel + 1) rest _ _ ep p h2
            · left
              rw [pkgOf_modPkg_ne st c crsMark id hidc] at hid3
              exact hid3
          · right
            intro p hp
            have hp1 : p ∈ (getA (modPkg st c crsMark).parent_map id).getD [] := by
              rw [modPkg_parent_map]
              exact hp
            exact markSubtreeKids_mono (fuel + 1) rest _ _ ep p (hpar3 p hp1)
        · right
          intro p hp
          apply hpar
          rw [hdn.1.2.1, modPkg_parent_map]
          exact hp

/-- Case analysis of one loser iteration. -/
theorem markLoserSubtreeStep_cases (losers : List String)
    (acc : GState × List String) (l : String) :
    markLoserSubtreeStep losers acc l = acc
    ∨ ∃ ccs, getA acc.1.all_nodes l = some ccs
        ∧ markLoserSubtreeStep losers acc l
            = markSubtreeKids (traversalFuel acc.1) acc.1
                (childrenOf acc.1 l) acc.2 losers := by
  unfold markLoserSubtreeStep
  rcases h : getA acc.1.all_nodes l with _ | ccs
  · left
    rfl
  · right
    exact ⟨ccs, rfl, rfl⟩

theorem loserFold_effect (losers : List String) :
    ∀ (ls : List String) (acc : GState × List String),
    ((ls.foldl (markLoserSubtreeStep losers) acc).1.all_nodes
        = acc.1.all_nodes
     ∧ (ls.foldl (markLoserSubtreeStep losers) acc).1.parent_map
        = acc.1.parent_map)
  ∧ ∀ x,
      (pkgOf (ls.foldl (markLoserSubtreeStep losers) acc).1 x = pkgOf acc.1 x
       ∨ pkgOf (ls.foldl (markLoserSubtreeStep losers) acc).1 x
           = crsMark (pkgOf acc.1 x))
      ∧ (getA (ls.foldl (markLoserSubtreeStep losers) acc).1.all_packages
          x).isSome = (getA acc.1.all_packages x).isSome
  | [], acc => ⟨⟨rfl, rfl⟩, fun x => ⟨Or.inl rfl, rfl⟩⟩
  | l :: ls, acc => by
    have hrec := loserFold_effect losers ls (markLoserSubtreeStep losers acc l)
    have hunf : (l :: ls).foldl (markLoserSubtreeStep losers) acc
        = ls.foldl (markLoserSubtreeStep losers)
            (markLoserSubtreeStep losers acc l) := rfl
    rw [hunf]
    rcases markLoserSubtreeStep_cases losers acc l with hskip | ⟨ccs, _, hstep⟩
    · rw [hskip] at hrec ⊢
      exact hrec
    · rw [hstep] at hrec ⊢
      have heff := markSubtreeKids_effect (traversalFuel acc.1)
        (childrenOf acc.1 l) acc.1 acc.2 losers
      refine ⟨⟨?_, ?_⟩, ?_⟩
      · rw [hrec.1.1, heff.1.1]
      · rw [hrec.1.2, heff.1.2.1]
      · intro x
        constructor
        · rcases (hrec.2 x).1 with h2 | h2 <;>
            rcases markSubtreeKids_pkg_cases (traversalFuel acc.1)
              (childrenOf acc.1 l) acc.1 acc.2 losers x with h1 | h1 <;>
            first
              | (left; rw [h2, h1]; done)
              | (right; rw [h2, h1]; try rw [crsMark_idem]; done)
        · rw [(hrec.2 x).2,
            markSubtreeKids_isSome (traversalFuel acc.1) _ _ _ _ x]

theorem loserFold_mono (losers : List String) (ls : List String)
    (acc : GState × List String) (x : String)
    (h : (pkgOf acc.1 x).scope = "excluded") :
    (pkgOf (ls.foldl (markLoserSubtreeStep losers) acc).1 x).scope
      = "excluded" := by
  rcases ((loserFold_effect losers ls acc).2 x).1 with hc | hc
  · rw [hc]
    exact h
  · rw [hc]
    rfl

theorem loserFold_only_if (losers : List String) :
    ∀ (ls : List String) (acc : GState × List String),
      childClosed acc.1 → nodesHavePackages acc.1 →
      (∀ l ∈ losers, (pkgOf acc.1 l).scope = "excluded") →
      ∀ id,
        (pkgOf (ls.foldl (markLoserSubtreeStep losers) acc).1 id).scope
          = "excluded" →
        (pkgOf acc.1 id).scope = "excluded"
        ∨ ∀ p ∈ (getA acc.1.parent_map id).getD [],
            (pkgOf (ls.foldl (markLoserSubtreeStep losers) acc).1 p).scope
              = "excluded"
  | [], acc, _, _, _, id, hid => Or.inl hid
  | l :: ls, acc, hcl, hwf, hls, id, hid => by
    have hunf : (l :: ls).foldl (markLoserSubtreeStep losers) acc
        = ls.foldl (markLoserSubtreeStep losers)
            (markLoserSubtreeStep losers acc l) := rfl
    rw [hunf] at hid ⊢
    rcases markLoserSubtreeStep_cases losers acc l with
      hskip | ⟨ccs, hccs, hstep⟩
    · rw [hskip] at hid ⊢
      exact loserFold_only_if losers ls acc hcl hwf hls id hid
    · rw [hstep] at hid ⊢
      have heff := markSubtreeKids_effect (traversalFuel acc.1)
        (childrenOf acc.1 l) acc.1 acc.2 losers
      have hcl2 : childClosed (markSubtreeKids (traversalFuel acc.1) acc.1
          (childrenOf acc.1 l) acc.2 losers).1 :=
        childClosed_of_nodes_eq heff.1.1 hcl
      have hwf2 : nodesHavePackages (markSubtreeKids (traversalFuel acc.1)
          acc.1 (childrenOf acc.1 l) acc.2 losers).1 :=
        nodesHavePackages_transfer heff.1.1
          (fun x => markSubtreeKids_isSome (traversalFuel acc.1) _ _ _ _ x) hwf
      have hls2 : ∀ l' ∈ losers,
          (pkgOf (markSubtreeKids (traversalFuel acc.1) acc.1
            (childrenOf acc.1 l) acc.2 losers).1 l').scope = "excluded" :=
        fun l' hl' => markSubtreeKids_mono (traversalFuel acc.1) _ _ _ _ l'
          (hls l' hl')
      rcases loserFold_only_if losers ls _ hcl2 hwf2 hls2 id hid with
        hid2 | hpar
      · -- excluded after this loser's walk
        have hcs : ∀ c ∈ childrenOf acc.1 l, (getA acc.1.all_nodes c).isSome := by
          intro c hc
          have hmem : (l, ccs) ∈ acc.1.all_nodes := getA_some_mem _ _ _ hccs
          have : childrenOf acc.1 l = ccs := by
            unfold childrenOf
            rw [hccs]
            rfl
          rw [this] at hc
          exact hcl (l, ccs) hmem c hc
        rcases markSubtreeKids_only_if (traversalFuel acc.1)
          (childrenOf acc.1 l) acc.1 acc.2 losers hcl hwf hcs hls id hid2 with
          hid3 | hpar3
        · left
          exact hid3
        · right
          intro p hp
          exact loserFold_mono losers ls _ p (hpar3 p hp)
      · right
        intro p hp
        apply hpar
        rw [heff.1.2.1]
        exact hp

/-- C5 (amended): after `_mark_loser_subtrees_excluded`, every package the
pass marked excluded has all of its parents excluded in the resulting
state; consequently a node with at least one non-excluded parent in the
result, and that was not excluded before the pass, is still not excluded.
The converse of the claim's "iff" fails: a node whose parents are all
excluded can stay unmarked when its parents were excluded on different
walk branches. -/
theorem mark_loser_subtrees_excluded_only_if (st : GState)
    (losers : List String) (hcl : childClosed st)
    (hwf : nodesHavePackages st)
    (hls : ∀ l ∈ losers, (pkgOf st l).scope = "excluded") (id : String) :
    ((pkgOf (mark_loser_subtrees_excluded losers st) id).scope = "excluded" →
       (pkgOf st id).scope = "excluded"
       ∨ ∀ p ∈ (getA st.parent_map id).getD [],
           (pkgOf (mark_loser_subtrees_excluded losers st) p).scope
             = "excluded")
  ∧ ((pkgOf st id).scope ≠ "excluded" →
       (∃ p, p ∈ (getA st.parent_map id).getD []
          ∧ (pkgOf (mark_loser_subtrees_excluded losers st) p).scope
              ≠ "excluded") →
       (pkgOf (mark_loser_subtrees_excluded losers st) id).scope
         ≠ "excluded") := by
  constructor
  · intro hid
    exact loserFold_only_if losers losers (st, []) hcl hwf hls id hid
  · rintro hs ⟨p, hp, hpne⟩ hid
    rcases loserFold_only_if losers losers (st, []) hcl hwf hls id hid with
      h | h
    · exact hs h
    · exact hpne (h p hp)

/-- C5 counterexample: in the diamond `L → A → C ← B ← M` with losers
`L, M` (already excluded), the pass marks `A` and `B`
(`conflict-resolution-subtree`) but leaves `C` unmarked even though both
of `C`'s parents are excluded afterwards — refuting the claimed "iff". -/
theorem mark_loser_subtrees_allparents_excluded_but_unmarked :
    (∀ p ∈ (getA diamondState.parent_map "C").getD [],
       (pkgOf (mark_loser_subtrees_excluded ["L", "M"] diamondState) p).scope
         = "excluded")
  ∧ (pkgOf (mark_loser_subtrees_excluded ["L", "M"] diamondState) "C").scope
      ≠ "excluded"
  ∧ (pkgOf (mark_loser_subtrees_excluded ["L", "M"] diamondState)
      "A").scope_reason = some "conflict-resolution-subtree"
  ∧ (pkgOf (mark_loser_subtrees_excluded ["L", "M"] diamondState)
      "B").scope_reason = some "conflict-resolution-subtree" := by
  refine ⟨?_, by decide, by decide, by decide⟩
  intro p hp
  fin_cases hp <;> decide

theorem mark_loser_subtrees_excluded_only_if_witness :
    (pkgOf diamondState "A").scope = "excluded"
    ∨ ∀ p ∈ (getA diamondState.parent_map "A").getD [],
        (pkgOf (mark_loser_subtrees_excluded ["L", "M"] diamondState)
          p).scope = "excluded" :=
  (mark_loser_subtrees_excluded_only_if diamondState ["L", "M"]
    (by intro e he; fin_cases he <;> (intro c hc; fin_cases hc <;> decide))
    (by intro e he; fin_cases he <;> decide)
    (by intro l hl; fin_cases hl <;> decide) "A").1 (by decide)

theorem propagate_excluded_scopes_witness :
    pkgOf (propagate_excluded_scopes scopeState) "V"
      = { pkgOf scopeState "V" with
            scope := "excluded", scope_reason := some "test-dependency" }
  ∧ pkgOf (propagate_excluded_scopes scopeState) "U" = pkgOf scopeState "U" :=
  ⟨by
    have h := (propagate_excluded_scopes_marks_exactly_test_only scopeState "V"
      (by decide) (by decide)).2
    rw [if_pos (by refine ⟨by decide, by decide, by decide⟩)] at h
    exact h,
   (propagate_excluded_scopes_marks_exactly_test_only scopeState "U"
      (by decide) (by decide)).1 (by decide)⟩

/-! ## C4 — loser/winner duality after conflict resolution -/

theorem pkgOf_eq_of_getA (st : GState) (id : String) (p : Package)
    (h : getA st.all_packages id = some p) : pkgOf st id = p := by
  unfold pkgOf
  rw [h]
  rfl

theorem getA_putA_isSome {K A : Type} [DecidableEq K]
    (m : List (K × A)) (k : K) (v : A) (x : K)
    (h : (getA m x).isSome) : (getA (putA m k v) x).isSome := by
  by_cases hx : x = k
  · subst hx
    rw [getA_putA_self]
    rfl
  · rw [getA_putA_ne _ _ _ _ hx]
    exact h

/-- The loser scan appends every node whose base key has a winner with a
different version. -/
theorem losersOf_mem (st : GState) (wv : List (String × String))
    (id : String) (cs : List String) (v : String)
    (hmem : (id, cs) ∈ st.all_nodes)
    (hwv : getA wv (base_key (pkgOf st id)) = some v)
    (hvne : v ≠ "")
    (hne : (pkgOf st id).version ≠ v) : id ∈ losersOf st wv := by
  unfold losersOf
  have hmono : ∀ (l : List (String × List String)) (acc : List String),
      id ∈ acc → id ∈ l.foldl (fun acc entry =>
        match getA wv (base_key (pkgOf st entry.1)) with
        | some winning_version =>
          if winning_version ≠ "" ∧ (pkgOf st entry.1).version
              ≠ winning_version then
            acc ++ [entry.1]
          else acc
        | none => acc) acc := by
    intro l
    induction l with
    | nil => intro acc h; exact h
    | cons e l ihl =>
      intro acc h
      apply ihl
      show id ∈ (match getA wv (base_key (pkgOf st e.1)) with
        | some winning_version =>
          if winning_version ≠ "" ∧ (pkgOf st e.1).version
              ≠ winning_version then
            acc ++ [e.1]
          else acc
        | none => acc)
      rcases getA wv (base_key (pkgOf st e.1)) with _ | v'
      · exact h
      · dsimp only
        split
        · exact List.mem_append_left _ h
        · exact h
  have hmain : ∀ (l : List (String × List String)) (acc : List String),
      (id, cs) ∈ l → id ∈ l.foldl (fun acc entry =>
        match getA wv (base_key (pkgOf st entry.1)) with
        | some winning_version =>
          if winning_version ≠ "" ∧ (pkgOf st entry.1).version
              ≠ winning_version then
            acc ++ [entry.1]
          else acc
        | none => acc) acc := by
    intro l
    induction l with
    | nil => intro acc h; exact absurd h (List.not_mem_nil _)
    | cons e l ihl =>
      intro acc h
      rcases List.mem_cons.mp h with he | hm
      · subst he
        rw [List.foldl_cons]
        apply hmono
        show id ∈ (match getA wv (base_key (pkgOf st id)) with
          | some winning_version =>
            if winning_version ≠ "" ∧ (pkgOf st id).version
                ≠ winning_version then
              acc ++ [id]
            else acc
          | none => acc)
        rw [hwv]
        dsimp only
        rw [if_pos ⟨hvne, hne⟩]
        exact List.mem_append_right _ (List.mem_singleton.mpr rfl)
      · exact ihl _ hm
  exact hmain st.all_nodes [] hmem

/-- The defeated map accumulates every loser's version under its base
key. -/
theorem defeatedByBaseKey_mem (st : GState) :
    ∀ (ls : List String) (m : List (String × List String)) (id : String),
      id ∈ ls →
      (pkgOf st id).version ∈
        (getA (ls.foldl (fun m loser_name =>
          putA m (base_key (pkgOf st loser_name))
            ((getA m (base_key (pkgOf st loser_name))).getD []
              ++ [(pkgOf st loser_name).version])) m)
          (base_key (pkgOf st id))).getD [] := by
  have hgrow : ∀ (ls : List String) (m : List (String × List String))
      (bk : String) (v : String),
      v ∈ (getA m bk).getD [] →
      v ∈ (getA (ls.foldl (fun m loser_name =>
            putA m (base_key (pkgOf st loser_name))
              ((getA m (base_key (pkgOf st loser_name))).getD []
                ++ [(pkgOf st loser_name).version])) m) bk).getD [] := by
    intro ls
    induction ls with
    | nil => intro m bk v h; exact h
    | cons l ls ihl =>
      intro m bk v h
      apply ihl
      show v ∈ (getA (putA m (base_key (pkgOf st l))
        ((getA m (base_key (pkgOf st l))).getD []
          ++ [(pkgOf st l).version])) bk).getD []
      by_cases hbk : bk = base_key (pkgOf st l)
      · subst hbk
        rw [getA_putA_self]
        exact List.mem_append_left _ h
      · rw [getA_putA_ne _ _ _ _ hbk]
        exact h
  intro ls
  induction ls with
  | nil => intro m id h; exact absurd h (List.not_mem_nil _)
  | cons l ls ihl =>
    intro m id h
    rcases List.mem_cons.mp h with he | hm
    · subst he
      rw [List.foldl_cons]
      apply hgrow
      show (pkgOf st id).version ∈ (getA (putA m (base_key (pkgOf st id))
        ((getA m (base_key (pkgOf st id))).getD []
          ++ [(pkgOf st id).version])) (base_key (pkgOf st id))).getD []
      rw [getA_putA_self]
      exact List.mem_append_right _ (List.mem_singleton.mpr rfl)
    · exact ihl _ id hm

/-- One loser-marking step only rewrites scope, reason, winning version
and strategy. -/
theorem markLoserStep_base_key (wv : List (String × String)) (st : GState)
    (l x : String) :
    base_key (pkgOf (markLoserStep wv st l) x) = base_key (pkgOf st x)
    ∧ (pkgOf (markLoserStep wv st l) x).version = (pkgOf st x).version := by
  simp only [markLoserStep]
  rcases pkgOf_modPkg_cases st l _ x with h | h
  · rw [h]
    exact ⟨rfl, rfl⟩
  · rw [h]
    constructor <;> (dsimp only; split <;> rfl)

theorem markLoserStep_all_nodes (wv : List (String × String)) (st : GState)
    (l : String) : (markLoserStep wv st l).all_nodes = st.all_nodes := rfl

theorem markLoserStep_isSome (wv : List (String × String)) (st : GState)
    (l x : String) :
    (getA (markLoserStep wv st l).all_packages x).isSome
      = (getA st.all_packages x).isSome :=
  getA_modA_isSome _ _ _ _

/-- Step 5 marks every listed loser excluded with the winner looked up at
its base key (and never un-marks one already marked). -/
theorem markLosers_sets (wv : List (String × String)) :
    ∀ (ls : List String) (st : GState) (id b : String),
      base_key (pkgOf st id) = b →
      (getA st.all_packages id).isSome →
      (id ∈ ls ∨ ((pkgOf st id).scope = "excluded"
        ∧ (pkgOf st id).winning_version = getA wv b)) →
      (pkgOf (ls.foldl (markLoserStep wv) st) id).scope = "excluded"
      ∧ (pkgOf (ls.foldl (markLoserStep wv) st) id).winning_version
          = getA wv b
  | [], st, id, b, _, _, hd => by
    rcases hd with hd | hd
    · exact absurd hd (List.not_mem_nil _)
    · exact hd
  | l :: ls, st, id, b, hbk, hsome, hd => by
    have hunf : (l :: ls).foldl (markLoserStep wv) st
        = ls.foldl (markLoserStep wv) (markLoserStep wv st l) := rfl
    rw [hunf]
    have hbk' : base_key (pkgOf (markLoserStep wv st l) id) = b := by
      rw [(markLoserStep_base_key wv st l id).1]
      exact hbk
    have hsome' : (getA (markLoserStep wv st l).all_packages id).isSome := by
      rw [markLoserStep_isSome]
      exact hsome
    by_cases hidl : id = l
    · subst hidl
      refine markLosers_sets wv ls _ id b hbk' hsome' (Or.inr ?_)
      have hset : pkgOf (markLoserStep wv st id) id
          = (fun p =>
              let p := { p with scope_strategy := some st.resolution_strategy }
              if p.scope_reason = none then
                { p with scope := "excluded", scope_reason := some "loser"
                         winning_version := getA wv (base_key (pkgOf st id)) }
              else
                { p with scope := "excluded"
                         winning_version := getA wv (base_key (pkgOf st id)) })
            (pkgOf st id) := by
        simp only [markLoserStep]
        exact pkgOf_modPkg_self st id _ hsome
      rw [hset, hbk]
      constructor
      · dsimp only
        split <;> rfl
      · dsimp only
        split <;> rfl
    · rcases hd with hd | hd
      · have hd' : id ∈ ls := by
          rcases List.mem_cons.mp hd with he | hm
          · exact absurd he hidl
          · exact hm
        exact markLosers_sets wv ls _ id b hbk' hsome' (Or.inl hd')
      · refine markLosers_sets wv ls _ id b hbk' hsome' (Or.inr ?_)
        have hne : pkgOf (markLoserStep wv st l) id = pkgOf st id := by
          unfold markLoserStep
          exact pkgOf_modPkg_ne st l _ id hidl
        rw [hne]
        exact hd

/-- The two membership facts about the dedup-appending fold of step 6. -/
theorem dvFold_mem_left (v : String) :
    ∀ (ds dv : List String), v ∈ dv →
      v ∈ ds.foldl (fun dv d => if d ∈ dv then dv else dv ++ [d]) dv
  | [], _, h => h
  | d :: ds, dv, h => by
    rw [List.foldl_cons]
    apply dvFold_mem_left v ds
    by_cases hd : d ∈ dv
    · rw [if_pos hd]
      exact h
    · rw [if_neg hd]
      exact List.mem_append_left _ h

theorem dvFold_mem_right (v : String) :
    ∀ (ds dv : List String), v ∈ ds →
      v ∈ ds.foldl (fun dv d => if d ∈ dv then dv else dv ++ [d]) dv
  | [], _, h => absurd h (List.not_mem_nil _)
  | d :: ds, dv, h => by
    rw [List.foldl_cons]
    rcases List.mem_cons.mp h with he | hm
    · subst he
      apply dvFold_mem_left
      by_cases hd : v ∈ dv
      · rw [if_pos hd]
        exact hd
      · rw [if_neg hd]
        exact List.mem_append_right _ (List.mem_singleton.mpr rfl)
    · exact dvFold_mem_right v ds _ hm

theorem markWinnerStep_all_nodes (dm : List (String × List String))
    (st : GState) (bw : String × String) :
    (markWinnerStep dm st bw).all_nodes = st.all_nodes := by
  simp only [markWinnerStep]
  repeat' split
  all_goals rfl

theorem markWinnerStep_isSome (dm : List (String × List String))
    (st : GState) (bw : String × String) (x : String) :
    (getA (markWinnerStep dm st bw).all_packages x).isSome
      = (getA st.all_packages x).isSome := by
  simp only [markWinnerStep]
  repeat' split
  all_goals first
    | rfl
    | exact getA_modA_isSome _ _ _ _

theorem markWinnerStep_scope_wv (dm : List (String × List String))
    (st : GState) (bw : String × String) (x : String) :
    (pkgOf (markWinnerStep dm st bw) x).scope = (pkgOf st x).scope
    ∧ (pkgOf (markWinnerStep dm st bw) x).winning_version
        = (pkgOf st x).winning_version := by
  simp only [markWinnerStep]
  repeat' split
  all_goals first
    | exact ⟨rfl, rfl⟩
    | (rcases pkgOf_modPkg_cases st _ _ x with h | h <;> rw [h] <;>
        exact ⟨rfl, rfl⟩)

theorem markWinnerStep_defeated_mono (dm : List (String × List String))
    (st : GState) (bw : String × String) (x v : String)
    (h : v ∈ (pkgOf st x).defeated_versions) :
    v ∈ (pkgOf (markWinnerStep dm st bw) x).defeated_versions := by
  simp only [markWinnerStep]
  repeat' split
  all_goals first
    | exact h
    | (rcases pkgOf_modPkg_cases st _ _ x with hc | hc
       · rw [hc]
         exact h
       · rw [hc]
         dsimp only
         exact dvFold_mem_left v _ _ h)

theorem markWinnersFold_scope_wv (dm : List (String × List String)) :
    ∀ (entries : List (String × String)) (st : GState) (x : String),
      (pkgOf (entries.foldl (markWinnerStep dm) st) x).scope
        = (pkgOf st x).scope
      ∧ (pkgOf (entries.foldl (markWinnerStep dm) st) x).winning_version
          = (pkgOf st x).winning_version
  | [], _, _ => ⟨rfl, rfl⟩
  | e :: es, st, x => by
    rw [List.foldl_cons]
    have h1 := markWinnerStep_scope_wv dm st e x
    have h2 := markWinnersFold_scope_wv dm es (markWinnerStep dm st e) x
    exact ⟨h2.1.trans h1.1, h2.2.trans h1.2⟩

theorem markWinnersFold_defeated_mono (dm : List (String × List String)) :
    ∀ (entries : List (String × String)) (st : GState) (x v : String),
      v ∈ (pkgOf st x).defeated_versions →
      v ∈ (pkgOf (entries.foldl (markWinnerStep dm) st) x).defeated_versions
  | [], _, _, _, h => h
  | e :: es, st, x, v, h => by
    rw [List.foldl_cons]
    exact markWinnersFold_defeated_mono dm es _ x v
      (markWinnerStep_defeated_mono dm st e x v h)

/-- Step 6 records each defeated version on the winner's package. -/
theorem markWinners_establishes (dm : List (String × List String)) :
    ∀ (entries : List (String × String)) (st : GState) (b w v : String),
      (b, w) ∈ entries →
      v ∈ (getA dm b).getD [] →
      (getA st.all_nodes (b ++ ":" ++ w)).isSome →
      (getA st.all_packages (b ++ ":" ++ w)).isSome →
      v ∈ (pkgOf (entries.foldl (markWinnerStep dm) st)
            (b ++ ":" ++ w)).defeated_versions
  | [], _, _, _, _, hmem, _, _, _ => absurd hmem (List.not_mem_nil _)
  | e :: es, st, b, w, v, hmem, hdm, hn, hp => by
    rw [List.foldl_cons]
    rcases List.mem_cons.mp hmem with he | hm
    · subst he
      apply markWinnersFold_defeated_mono
      have hset : pkgOf (markWinnerStep dm st (b, w)) (b ++ ":" ++ w)
          = (fun p =>
              let p := { p with scope_strategy := some st.resolution_strategy }
              let dv := ((getA dm b).getD []).foldl
                (fun dv d => if d ∈ dv then dv else dv ++ [d])
                p.defeated_versions
              { p with defeated_versions := dv }) (pkgOf st (b ++ ":" ++ w)) := by
        simp only [markWinnerStep]
        rw [if_pos (List.ne_nil_of_mem hdm), if_pos (by exact hn)]
        exact pkgOf_modPkg_self st _ _ hp
      rw [hset]
      dsimp only
      exact dvFold_mem_right v _ _ hdm
    · exact markWinners_establishes dm es _ b w v hm hdm
        (by rw [markWinnerStep_all_nodes]; exact hn)
        (by rw [markWinnerStep_isSome]; exact hp)

/-- Edge redirection never touches the package objects. -/
theorem redirect_all_packages (losers : List String)
    (wv : List (String × String)) (st : GState) :
    (redirect_edges_to_winners losers wv st).all_packages
      = st.all_packages := by
  unfold redirect_edges_to_winners
  refine foldl_preserves _ (fun s => s.all_packages = st.all_packages) ?_
    losers st rfl
  intro s l hs
  dsimp only
  rcases getA s.all_nodes l with _ | _
  · exact hs
  · rcases getA wv (base_key (pkgOf s l)) with _ | wver
    · exact hs
    · dsimp only
      split
      · exact hs
      · rcases getA s.all_nodes (base_key (pkgOf s l) ++ ":" ++ wver)
          with _ | _
        · exact hs
        · refine foldl_preserves _
            (fun s' => s'.all_packages = st.all_packages) ?_ _ s hs
          intro s' p hs'
          dsimp only
          rcases getA s'.all_nodes p with _ | pchildren
          · exact hs'
          · dsimp only
            split
            · exact hs'
            · rw [addParent_all_packages, addChild_all_packages]
              exact hs'

theorem addChild_nodes_isSome (st : GState) (p c x : String)
    (h : (getA st.all_nodes x).isSome) :
    (getA (addChild st p c).all_nodes x).isSome := by
  unfold addChild
  rcases getA st.all_nodes p with _ | cs
  · exact h
  · dsimp only
    split
    · exact h
    · exact getA_putA_isSome _ _ _ _ h

theorem addParent_all_nodes (st : GState) (c p : String) :
    (addParent st c p).all_nodes = st.all_nodes := by
  unfold addParent
  dsimp only
  split
  · rfl
  · rfl

/-- Edge redirection only adds node children; node existence is preserved. -/
theorem redirect_nodes_isSome (losers : List String)
    (wv : List (String × String)) (st : GState) (x : String)
    (h : (getA st.all_nodes x).isSome) :
    (getA (redirect_edges_to_winners losers wv st).all_nodes x).isSome := by
  unfold redirect_edges_to_winners
  refine foldl_preserves _ (fun s => (getA s.all_nodes x).isSome = true) ?_
    losers st h
  intro s l hs
  dsimp only
  rcases getA s.all_nodes l with _ | _
  · exact hs
  · rcases getA wv (base_key (pkgOf s l)) with _ | wver
    · exact hs
    · dsimp only
      split
      · exact hs
      · rcases getA s.all_nodes (base_key (pkgOf s l) ++ ":" ++ wver)
          with _ | _
        · exact hs
        · refine foldl_preserves _
            (fun s' => (getA s'.all_nodes x).isSome = true) ?_ _ s hs
          intro s' p hs'
          dsimp only
          rcases getA s'.all_nodes p with _ | pchildren
          · exact hs'
          · dsimp only
            split
            · exact hs'
            · rw [addParent_all_nodes]
              exact addChild_nodes_isSome _ _ _ _ hs'

theorem markLosersFold_all_nodes (wv : List (String × String)) :
    ∀ (ls : List String) (st : GState),
      (ls.foldl (markLoserStep wv) st).all_nodes = st.all_nodes
  | [], _ => rfl
  | l :: ls, st => by
    rw [List.foldl_cons, markLosersFold_all_nodes wv ls]
    rfl

theorem markLosersFold_isSome (wv : List (String × String)) :
    ∀ (ls : List String) (st : GState) (x : String),
      (getA (ls.foldl (markLoserStep wv) st).all_packages x).isSome
        = (getA st.all_packages x).isSome
  | [], _, _ => rfl
  | l :: ls, st, x => by
    rw [List.foldl_cons, markLosersFold_isSome wv ls, markLoserStep_isSome]

/-- Pointwise effect of one propagation-marking step. -/
theorem propStep_pkg_cases (rr : List String) (st : GState) (n x : String) :
    pkgOf (propStep rr st n) x = pkgOf st x
    ∨ pkgOf (propStep rr st n) x
        = { pkgOf st x with scope := "excluded"
                            scope_reason := some "test-dependency" } := by
  unfold propStep
  split
  · left
    rfl
  · split
    · left
      rfl
    · split
      · exact pkgOf_modPkg_cases st n _ x
      · left
        rfl

theorem propagateMark_pkg_cases (rr : List String) :
    ∀ (L : List String) (st : GState) (x : String),
      pkgOf (propagateMark rr L st) x = pkgOf st x
      ∨ pkgOf (propagateMark rr L st) x
          = { pkgOf st x with scope := "excluded"
                              scope_reason := some "test-dependency" }
  | [], _, _ => Or.inl rfl
  | n :: L, st, x => by
    rw [show propagateMark rr (n :: L) st
      = propagateMark rr L (propStep rr st n) from rfl]
    rcases propagateMark_pkg_cases rr L (propStep rr st n) x with h2 | h2 <;>
      rcases propStep_pkg_cases rr st n x with h1 | h1
    · left
      rw [h2, h1]
    · right
      rw [h2, h1]
    · right
      rw [h2, h1]
    · right
      rw [h2, h1]

theorem propagate_excluded_scopes_pkg_cases (st : GState) (x : String) :
    pkgOf (propagate_excluded_scopes st) x = pkgOf st x
    ∨ pkgOf (propagate_excluded_scopes st) x
        = { pkgOf st x with scope := "excluded"
                            scope_reason := some "test-dependency" } := by
  unfold propagate_excluded_scopes
  split
  · left
    rfl
  · exact propagateMark_pkg_cases _ _ st x

theorem defeatedByBaseKey_mem_of_loser (st : GState) (ls : List String)
    (id : String) (h : id ∈ ls) :
    (pkgOf st id).version ∈
      (getA (defeatedByBaseKey st ls) (base_key (pkgOf st id))).getD [] :=
  defeatedByBaseKey_mem st ls [] id h

theorem pkgOf_congr (st st' : GState)
    (h : st'.all_packages = st.all_packages) (x : String) :
    pkgOf st' x = pkgOf st x := by
  unfold pkgOf
  rw [h]

/-- The subtree pass never touches winning versions and only grows
defeated-version lists. -/
theorem loserFold_wv_defeated (losers ls : List String)
    (acc : GState × List String) (x : String) :
    (pkgOf (ls.foldl (markLoserSubtreeStep losers) acc).1 x).winning_version
      = (pkgOf acc.1 x).winning_version
    ∧ ∀ v, v ∈ (pkgOf acc.1 x).defeated_versions →
        v ∈ (pkgOf (ls.foldl (markLoserSubtreeStep losers) acc).1
              x).defeated_versions := by
  rcases ((loserFold_effect losers ls acc).2 x).1 with hc | hc <;> rw [hc]
  · exact ⟨rfl, fun _ hv => hv⟩
  · exact ⟨rfl, fun _ hv => hv⟩

/-- Scope propagation keeps excluded packages excluded and never touches
winning or defeated versions. -/
theorem propagate_pkg_fields (st : GState) (x : String) :
    ((pkgOf st x).scope = "excluded" →
      (pkgOf (propagate_excluded_scopes st) x).scope = "excluded")
    ∧ (pkgOf (propagate_excluded_scopes st) x).winning_version
        = (pkgOf st x).winning_version
    ∧ ∀ v, v ∈ (pkgOf st x).defeated_versions →
        v ∈ (pkgOf (propagate_excluded_scopes st) x).defeated_versions := by
  rcases propagate_excluded_scopes_pkg_cases st x with hc | hc <;> rw [hc]
  · exact ⟨fun h => h, rfl, fun _ hv => hv⟩
  · exact ⟨fun _ => rfl, rfl, fun _ hv => hv⟩

/-- C4 (amended): after `apply_conflict_resolution`, for every winner
entry (base key `b` won by a *non-empty* version `w`, with the winner's
node and package present) and every loser node whose package shares base
key `b` at a different version, the loser's package ends with scope
`excluded` and `winning_version = some w`, and the loser's version is
recorded in the winner package's `defeated_versions`. The non-emptiness
condition is forced by the truthiness guards at lines 247 and 818-820:
an empty-string winning version marks no losers. -/
theorem apply_conflict_resolution_loser_winner_duality
    (st : GState) (b w loserId : String) (lpkg : Package)
    (hroots : st.root_nodes ≠ [])
    (hw : getA (winningVersionsOf st) b = some w)
    (hwne : w ≠ "")
    (hln : (getA st.all_nodes loserId).isSome)
    (hwn : (getA st.all_nodes (b ++ ":" ++ w)).isSome)
    (hlp : getA st.all_packages loserId = some lpkg)
    (hwp : (getA st.all_packages (b ++ ":" ++ w)).isSome)
    (hbk : base_key lpkg = b)
    (hver : lpkg.version ≠ w) :
    (pkgOf (apply_conflict_resolution st) loserId).scope = "excluded"
    ∧ (pkgOf (apply_conflict_resolution st) loserId).winning_version
        = some w
    ∧ lpkg.version ∈ (pkgOf (apply_conflict_resolution st)
        (b ++ ":" ++ w)).defeated_versions := by
  have hroots' : st.root_nodes.isEmpty = false := by
    cases h : st.root_nodes
    · exact absurd h hroots
    · rfl
  have hgoal : apply_conflict_resolution st
      = propagate_excluded_scopes
          (mark_loser_subtrees_excluded (losersOf st (winningVersionsOf st))
            (markWinners
              (markLosers
                (redirect_edges_to_winners
                  (losersOf st (winningVersionsOf st))
                  (winningVersionsOf st) st)
                (losersOf st (winningVersionsOf st)) (winningVersionsOf st))
              (winningVersionsOf st)
              (defeatedByBaseKey st (losersOf st (winningVersionsOf st))))) := by
    unfold apply_conflict_resolution
    rw [if_neg (by rw [hroots']; exact Bool.false_ne_true)]
  rw [hgoal]
  set wv := winningVersionsOf st with hwvdef
  set losers := losersOf st wv with hlosersdef
  set dm := defeatedByBaseKey st losers with hdmdef
  set st1 := redirect_edges_to_winners losers wv st with hst1def
  set st2 := markLosers st1 losers wv with hst2def
  set st3 := markWinners st2 wv dm with hst3def
  set st4 := mark_loser_subtrees_excluded losers st3 with hst4def
  rcases ho : getA st.all_nodes loserId with _ | lcs
  · rw [ho] at hln
    exact absurd hln (by simp)
  have hlmemnodes : (loserId, lcs) ∈ st.all_nodes := getA_some_mem _ _ _ ho
  have hpk : pkgOf st loserId = lpkg := pkgOf_eq_of_getA st loserId lpkg hlp
  have h_lmem : loserId ∈ losers :=
    losersOf_mem st wv loserId lcs w hlmemnodes
      (by rw [hpk, hbk]; exact hw) hwne (by rw [hpk]; exact hver)
  have h_dm : lpkg.version ∈ (getA dm b).getD [] := by
    have h := defeatedByBaseKey_mem_of_loser st losers loserId h_lmem
    rw [hpk, hbk] at h
    exact h
  have hwmem : (b, w) ∈ wv := getA_some_mem _ _ _ hw
  have hap1 : st1.all_packages = st.all_packages :=
    redirect_all_packages losers wv st
  have hpk1 : pkgOf st1 loserId = lpkg := by
    rw [pkgOf_congr st st1 hap1, hpk]
  have hwnode1 : (getA st1.all_nodes (b ++ ":" ++ w)).isSome :=
    redirect_nodes_isSome losers wv st _ hwn
  have hwp1 : (getA st1.all_packages (b ++ ":" ++ w)).isSome := by
    rw [hap1]
    exact hwp
  have hlp1 : (getA st1.all_packages loserId).isSome := by
    rw [hap1, hlp]
    rfl
  have hP2 : (pkgOf st2 loserId).scope = "excluded"
      ∧ (pkgOf st2 loserId).winning_version = getA wv b :=
    markLosers_sets wv losers st1 loserId b
      (by rw [hpk1]; exact hbk) hlp1 (Or.inl h_lmem)
  have hwv2 : (pkgOf st2 loserId).winning_version = some w := by
    rw [hP2.2, hw]
  have hwnode2 : (getA st2.all_nodes (b ++ ":" ++ w)).isSome := by
    have han2 : st2.all_nodes = st1.all_nodes :=
      markLosersFold_all_nodes wv losers st1
    rw [han2]
    exact hwnode1
  have hwp2 : (getA st2.all_packages (b ++ ":" ++ w)).isSome := by
    have h := markLosersFold_isSome wv losers st1 (b ++ ":" ++ w)
    show (getA (losers.foldl (markLoserStep wv) st1).all_packages
      (b ++ ":" ++ w)).isSome = true
    rw [h]
    exact hwp1
  have hsc3 : (pkgOf st3 loserId).scope = "excluded" :=
    (markWinnersFold_scope_wv dm wv st2 loserId).1.trans hP2.1
  have hwv3 : (pkgOf st3 loserId).winning_version = some w :=
    (markWinnersFold_scope_wv dm wv st2 loserId).2.trans hwv2
  have hdef3 : lpkg.version ∈
      (pkgOf st3 (b ++ ":" ++ w)).defeated_versions :=
    markWinners_establishes dm wv st2 b w lpkg.version hwmem h_dm
      hwnode2 hwp2
  have hsc4 : (pkgOf st4 loserId).scope = "excluded" :=
    loserFold_mono losers losers (st3, []) loserId hsc3
  have hwv4 : (pkgOf st4 loserId).winning_version = some w :=
    (loserFold_wv_defeated losers losers (st3, []) loserId).1.trans hwv3
  have hdef4 : lpkg.version ∈
      (pkgOf st4 (b ++ ":" ++ w)).defeated_versions :=
    (loserFold_wv_defeated losers losers (st3, []) (b ++ ":" ++ w)).2
      lpkg.version hdef3
  exact ⟨(propagate_pkg_fields st4 loserId).1 hsc4,
    (propagate_pkg_fields st4 loserId).2.1.trans hwv4,
    (propagate_pkg_fields st4 (b ++ ":" ++ w)).2.2 lpkg.version hdef4⟩

theorem apply_conflict_resolution_loser_winner_duality_witness :
    (pkgOf (apply_conflict_resolution conflictState)
        "maven:commons:io:2.5").scope = "excluded"
    ∧ (pkgOf (apply_conflict_resolution conflictState)
        "maven:commons:io:2.5").winning_version = some "2.11"
    ∧ "2.5" ∈ (pkgOf (apply_conflict_resolution conflictState)
        ("maven:commons:io" ++ ":" ++ "2.11")).defeated_versions :=
  apply_conflict_resolution_loser_winner_duality conflictState
    "maven:commons:io" "2.11" "maven:commons:io:2.5"
    (mkPackage "maven" "commons:io" "2.5")
    (by decide) (by decide) (by decide) (by decide) (by decide) (by decide)
    (by decide) (by decide) (by decide)

/-- C4 counterexample: with winner-map entry `maven:g:a ↦ ""` (the
winner node `maven:g:a:` and its package present) and the same-base-key
package `maven:g:a:2.5` at a different version, the claim requires that
package to end excluded with the winner's version recorded — but the
truthiness guard at line 247 skips the falsy winner, and the package
leaves `apply_conflict_resolution` untouched: scope `compile`, no
winning version, and nothing recorded on the winner's
`defeated_versions`. -/
theorem apply_conflict_resolution_empty_winner_skipped :
    getA (winningVersionsOf emptyWinnerState) "maven:g:a" = some ""
  ∧ (getA emptyWinnerState.all_nodes ("maven:g:a" ++ ":" ++ "")).isSome
  ∧ (getA emptyWinnerState.all_packages ("maven:g:a" ++ ":" ++ "")).isSome
  ∧ base_key (pkgOf emptyWinnerState "maven:g:a:2.5") = "maven:g:a"
  ∧ (pkgOf emptyWinnerState "maven:g:a:2.5").version ≠ ""
  ∧ (pkgOf (apply_conflict_resolution emptyWinnerState)
      "maven:g:a:2.5").scope = "compile"
  ∧ (pkgOf (apply_conflict_resolution emptyWinnerState)
      "maven:g:a:2.5").winning_version = none
  ∧ (pkgOf (apply_conflict_resolution emptyWinnerState)
      ("maven:g:a" ++ ":" ++ "")).defeated_versions = [] :=
  ⟨by decide, by decide, by decide, by decide, by decide, by decide,
   by decide, by decide⟩


end Deptrast
